import Mathlib

/-!
Shallow embedding of the TaskBound state rehydration and time-advancement
engine.

Sources embedded here:
* the shared state helpers (`toISODateKey`, `ensureTaskDefaults`,
  `realignTaskStatuses`, `autoAdvance`, `rehydrateState`,
  `ensureAlignedTasks`, `createEmptyState`);
* the live reducer (the extended variant with pause/resume, reorder and
  always-on-top handling), plus the earlier variant of the `addTime`
  case, kept separately as `addTimeV1`.

Modelling conventions:
* ISO-8601 timestamp strings are modelled as integer milliseconds since
  the epoch (`Int`); `Date.toISOString` is the identity under this view,
  and `toISODateKey` (slicing the first 10 characters of the ISO string,
  i.e. the calendar day) becomes flooring division by 86400000.
* JavaScript `undefined` for optional fields is `Option.none`; `x ?? y`
  is `Option.getD`.
* The engine's `while` loop is expressed as structural recursion on an
  explicit iteration budget (`fuel`); the termination argument of the
  source (each iteration either exhausts the elapsed budget or strikes
  one task) is proved as a theorem showing the budget
  `countNonTerminal tasks + 1` is always sufficient.
* Task ids, titles and app versions are `String`s as in the source.
-/

namespace TaskBound

inductive TaskStatus where
  | pending
  | in_progress
  | completed
  | struck
deriving DecidableEq, Repr

inductive HistoryType where
  | manual_complete
  | auto_complete
  | add_time
deriving DecidableEq, Repr

/-- History entry `{type, amountSeconds?, at}`; the `at` field is named
`atTime` because `at` is reserved in Lean. -/
structure TaskHistoryEntry where
  type : HistoryType
  amountSeconds : Option Int
  atTime : Int
deriving DecidableEq, Repr

/-- The task record. `status` is `Option` because raw persisted documents
may miss it (the normalizer defaults it); all other optionality mirrors
the TypeScript interface. -/
structure Task where
  id : String
  title : String
  createdAt : Int
  updatedAt : Int
  completedAt : Option Int := none
  timeAssignedSeconds : Option Int := none
  remainingSeconds : Option Int := none
  status : Option TaskStatus := none
  isPaused : Option Bool := none
  history : List TaskHistoryEntry := []
deriving DecidableEq, Repr

structure Stats where
  totalCompleted : Int
  todayCompleted : Int
  lastCompletionDate : Option Int
deriving DecidableEq, Repr

structure Meta where
  lastSavedAt : Int
  appVersion : String
deriving DecidableEq, Repr

structure Prefs where
  alwaysOnTop : Bool
deriving DecidableEq, Repr

structure AppState where
  score : Int
  tasks : List Task
  stats : Stats
  meta : Meta
  preferences : Prefs
deriving DecidableEq, Repr

/-- Raw persisted stats: every field may be absent. -/
structure RawStats where
  totalCompleted : Option Int := none
  todayCompleted : Option Int := none
  lastCompletionDate : Option Int := none
deriving DecidableEq, Repr

structure RawMeta where
  lastSavedAt : Option Int := none
  appVersion : Option String := none
deriving DecidableEq, Repr

structure RawPrefs where
  alwaysOnTop : Option Bool := none
deriving DecidableEq, Repr

/-- Raw persisted document: every top-level component may be absent. -/
structure RawState where
  score : Option Int := none
  tasks : Option (List Task) := none
  stats : Option RawStats := none
  meta : Option RawMeta := none
  preferences : Option RawPrefs := none
deriving DecidableEq, Repr

/-- Injection of a hydrated state into the raw-document shape (every
field present), used to feed a rehydrated state back into
`rehydrateState`, as happens when the persisted JSON round-trips. -/
def AppState.toRaw (s : AppState) : RawState :=
  { score := some s.score
    tasks := some s.tasks
    stats := some
      { totalCompleted := some s.stats.totalCompleted
        todayCompleted := some s.stats.todayCompleted
        lastCompletionDate := s.stats.lastCompletionDate }
    meta := some
      { lastSavedAt := some s.meta.lastSavedAt
        appVersion := some s.meta.appVersion }
    preferences := some { alwaysOnTop := some s.preferences.alwaysOnTop } }

/-- `toISODateKey(value) = value.toISOString().slice(0, 10)`: the calendar
day of a timestamp, i.e. flooring division of the epoch milliseconds by
the number of milliseconds in a day. -/
def toISODateKey (value : Int) : Int :=
  Int.fdiv value 86400000

/-- A task counts as terminal when its status is `completed` or `struck`;
everything else (including a missing status) is non-terminal. -/
def Task.terminal (t : Task) : Bool :=
  t.status = some TaskStatus.completed || t.status = some TaskStatus.struck

/-- `ensureTaskDefaults`: default `status` to `pending`, derive
`remainingSeconds` from `timeAssignedSeconds` when the former is absent
but the latter is present. (The defensive history copy of the source is
the identity in a pure model.) -/
def ensureTaskDefaults (task : Task) : Task :=
  let next := task
  let next := { next with status := some (next.status.getD TaskStatus.pending) }
  let next :=
    if next.timeAssignedSeconds.isSome && next.remainingSeconds.isNone then
      { next with remainingSeconds := next.timeAssignedSeconds }
    else next
  next

/-- `createEmptyState(appVersion, now)`. -/
def createEmptyState (appVersion : String) (now : Int) : AppState :=
  { score := 0
    tasks := []
    stats := { totalCompleted := 0, todayCompleted := 0, lastCompletionDate := none }
    meta := { lastSavedAt := now, appVersion := appVersion }
    preferences := { alwaysOnTop := true } }

/-- `findNextActiveIndex`: index of the first task whose status is
neither `completed` nor `struck` (`findIndex`, with `none` for `-1`). -/
def findNextActiveIndex : List Task → Option Nat
  | [] => none
  | t :: ts =>
    if t.terminal then (findNextActiveIndex ts).map (· + 1) else some 0

/-- The effective remaining time used throughout the source:
`task.remainingSeconds ?? task.timeAssignedSeconds ?? 0`. -/
def Task.effectiveRemaining (t : Task) : Int :=
  t.remainingSeconds.getD (t.timeAssignedSeconds.getD 0)

/-- Body of `realignTaskStatuses`: the `hasActive` flag threads through
the queue; terminal tasks pass unchanged, the first non-terminal task
becomes `in_progress` when it has positive remaining/assigned time
(`pending` otherwise), and every later non-terminal task is forced to
`pending`. -/
def realignGo (hasActive : Bool) : List Task → List Task
  | [] => []
  | task :: ts =>
    if task.terminal then
      task :: realignGo hasActive ts
    else if hasActive then
      { task with status := some TaskStatus.pending } :: realignGo hasActive ts
    else
      let remaining := task.effectiveRemaining
      let status := if remaining > 0 then TaskStatus.in_progress else TaskStatus.pending
      { task with status := some status } :: realignGo true ts

/-- `realignTaskStatuses`. -/
def realignTaskStatuses (tasks : List Task) : List Task :=
  realignGo false tasks

/-- `ensureAlignedTasks`. -/
def ensureAlignedTasks (tasks : List Task) : List Task :=
  realignTaskStatuses (tasks.map ensureTaskDefaults)

/-- Number of non-terminal tasks; the termination measure of the
auto-advance loop. -/
def countNonTerminal (tasks : List Task) : Nat :=
  tasks.countP (fun t => !t.terminal)

/-- The stats update performed when the catch-up engine strikes a task
(increment `todayCompleted` when the date key matches the recorded one,
else reset it to 1 and record the new date; always increment
`totalCompleted`). -/
def strikeStats (stats : Stats) (now : Int) : Stats :=
  let todayKey := toISODateKey now
  let stats :=
    if stats.lastCompletionDate = some todayKey then
      { stats with todayCompleted := stats.todayCompleted + 1 }
    else
      { stats with todayCompleted := 1, lastCompletionDate := some todayKey }
  { stats with totalCompleted := stats.totalCompleted + 1 }

/-- The struck task produced by one strike iteration of the loop. -/
def strikeTask (task : Task) (remaining : Int) (now : Int) : Task :=
  { task with
    remainingSeconds := some 0
    status := some TaskStatus.struck
    completedAt := some now
    updatedAt := now
    history := task.history ++
      [{ type := HistoryType.auto_complete, amountSeconds := some remaining, atTime := now }] }

/-- The `while (secondsRemaining > 0)` loop of `autoAdvance`, as
structural recursion on an iteration budget. Each iteration either
returns (budget exhausted, no active task, untimed active task, or
partial consumption) or strikes the active task and recurses. -/
def autoAdvanceGo (now : Int) :
    Nat → List Task → Stats → Int → List Task × Stats
  | 0, tasks, stats, _ => (tasks, stats)
  | fuel + 1, tasks, stats, secondsRemaining =>
    if secondsRemaining > 0 then
      match findNextActiveIndex tasks with
      | none => (tasks, stats)
      | some activeIndex =>
        match tasks[activeIndex]? with
        | none => (tasks, stats)
        | some task =>
          let remaining := task.effectiveRemaining
          if remaining ≤ 0 then
            -- No timer for this task; stop auto-advancing.
            (tasks.set activeIndex task, stats)
          else if secondsRemaining ≥ remaining then
            autoAdvanceGo now fuel
              (tasks.set activeIndex (strikeTask task remaining now))
              (strikeStats stats now)
              (secondsRemaining - remaining)
          else
            (tasks.set activeIndex
              { task with
                remainingSeconds := some (remaining - secondsRemaining)
                updatedAt := now
                status := some TaskStatus.in_progress }, stats)
    else
      (tasks, stats)

/-- `autoAdvance(state, elapsedSeconds, now)`: normalize every task,
run the catch-up loop (with provably sufficient budget), then realign. -/
def autoAdvance (state : AppState) (elapsedSeconds : Int) (now : Int) :
    List Task × Stats :=
  let tasks := state.tasks.map ensureTaskDefaults
  let result := autoAdvanceGo now (countNonTerminal tasks + 1) tasks state.stats elapsedSeconds
  (realignTaskStatuses result.1, result.2)

/-- `rehydrateState(rawState, appVersion, now)`. -/
def rehydrateState (rawState : RawState) (appVersion : String) (now : Int) :
    AppState :=
  let baseState : AppState :=
    { score := rawState.score.getD 0
      tasks := (rawState.tasks.getD []).map ensureTaskDefaults
      stats :=
        { totalCompleted := (rawState.stats.bind RawStats.totalCompleted).getD 0
          todayCompleted := (rawState.stats.bind RawStats.todayCompleted).getD 0
          lastCompletionDate := rawState.stats.bind RawStats.lastCompletionDate }
      meta :=
        { lastSavedAt := (rawState.meta.bind RawMeta.lastSavedAt).getD now
          appVersion := appVersion }
      preferences :=
        { alwaysOnTop := (rawState.preferences.bind RawPrefs.alwaysOnTop).getD true } }
  -- `baseState.meta.lastSavedAt` is an ISO string in the source, hence
  -- always truthy; the `: now` fallback of the conditional is dead.
  let lastSaved := baseState.meta.lastSavedAt
  let elapsedSeconds := max 0 (Int.fdiv (now - lastSaved) 1000)
  let nextState :=
    if elapsedSeconds > 0 then
      let auto := autoAdvance baseState elapsedSeconds now
      { baseState with tasks := auto.1, stats := auto.2 }
    else baseState
  { nextState with
    tasks := realignTaskStatuses nextState.tasks
    meta := { lastSavedAt := now, appVersion := appVersion }
    preferences := { alwaysOnTop := nextState.preferences.alwaysOnTop } }

/-- Reducer actions. `addTask` carries the freshly generated uuid
explicitly (the source calls `uuid()` inside the reducer; making the id
an action payload keeps the transition a pure function). -/
inductive AppAction where
  | hydrate (payload : AppState)
  | tick (now : Int)
  | addTask (newId : String) (title : String) (seconds : Option Int) (now : Int)
  | manualComplete (now : Int)
  | addTime (taskId : String) (seconds : Int) (now : Int)
  | updateTask (taskId : String) (title : String) (seconds : Option Int) (now : Int)
  | deleteTask (taskId : String) (now : Int)
  | reorderTasks (orderedTaskIds : List String) (now : Int)
  | syncMeta (lastSavedAt : Int) (appVersion : String)
  | setAlwaysOnTop (value : Bool)
  | pauseTask (taskId : String) (now : Int)
  | resumeTask (taskId : String) (now : Int)
deriving DecidableEq, Repr

/-- `updateStatsOnCompletion(state, completionIso)`. -/
def updateStatsOnCompletion (state : AppState) (completionIso : Int) : Stats :=
  let dateKey := toISODateKey completionIso
  let lastDate := state.stats.lastCompletionDate
  let todayCompleted :=
    if lastDate = some dateKey then state.stats.todayCompleted + 1 else 1
  { totalCompleted := state.stats.totalCompleted + 1
    todayCompleted := todayCompleted
    lastCompletionDate := some dateKey }

/-- The per-task map body of the `tick` case: only the active task with a
numeric, positive, un-paused remaining time changes. -/
def tickTask (now : Int) (task : Task) : Task :=
  match task.remainingSeconds with
  | none => task
  | some r =>
    if r ≤ 0 then task
    else if task.isPaused = some true then task
    else
      let remainingSeconds := r - 1
      if remainingSeconds > 0 then
        { task with
          remainingSeconds := some remainingSeconds
          updatedAt := now
          status := some TaskStatus.in_progress }
      else
        { task with
          remainingSeconds := some 0
          status := some TaskStatus.struck
          completedAt := some now
          updatedAt := now
          history := task.history ++
            [{ type := HistoryType.auto_complete
               amountSeconds := some (task.timeAssignedSeconds.getD 0)
               atTime := now }] }

/-- The per-task map body of the `addTime` case (extended variant). -/
def addTimeTask (seconds now : Int) (task : Task) : Task :=
  let previousAssigned := task.timeAssignedSeconds.getD 0
  let totalAssigned := previousAssigned + seconds
  let remaining := task.effectiveRemaining + seconds
  let wasFinished := task.terminal
  let status :=
    if wasFinished && remaining > 0 then TaskStatus.in_progress
    else if task.terminal then task.status.getD TaskStatus.pending
    else TaskStatus.in_progress
  { task with
    timeAssignedSeconds := some totalAssigned
    remainingSeconds := some remaining
    updatedAt := now
    status := some status
    completedAt := if wasFinished && remaining > 0 then none else task.completedAt
    history := task.history ++
      [{ type := HistoryType.add_time, amountSeconds := some seconds, atTime := now }] }

/-- Score delta contributed by one task in the `addTime` case (extended
variant): −1 when the added amount is positive and the task already had
a positive assigned budget. -/
def addTimeScoreDelta (seconds : Int) (task : Task) : Int :=
  if seconds > 0 && task.timeAssignedSeconds.getD 0 > 0 then -1 else 0

/-- The per-task map body of the `updateTask` case (extended variant). -/
def updateTaskTask (title : String) (seconds : Option Int) (now : Int)
    (task : Task) : Task :=
  let previousAssigned := task.timeAssignedSeconds.getD 0
  let previousRemaining := task.remainingSeconds.getD previousAssigned
  let nextAssigned := seconds
  let hasTime := nextAssigned.isSome && nextAssigned.getD 0 > 0
  let nextRemaining : Option Int :=
    if hasTime then some (max 0 (previousRemaining + (nextAssigned.getD 0 - previousAssigned)))
    else none
  let wasFinished := task.terminal
  let revived := wasFinished && hasTime && nextRemaining.getD 0 > 0
  let status :=
    if revived then TaskStatus.in_progress
    else if task.terminal then task.status.getD TaskStatus.pending
    else if hasTime then TaskStatus.in_progress
    else TaskStatus.pending
  { task with
    title := title
    timeAssignedSeconds := if hasTime then nextAssigned else none
    remainingSeconds := if hasTime then nextRemaining else none
    updatedAt := now
    status := some status
    completedAt := if revived then none else task.completedAt }

/-- Score delta contributed by one task in the `updateTask` case
(extended variant). -/
def updateTaskScoreDelta (seconds : Option Int) (task : Task) : Int :=
  let previousAssigned := task.timeAssignedSeconds.getD 0
  let hasTime := seconds.isSome && seconds.getD 0 > 0
  if hasTime && seconds.getD 0 - previousAssigned > 0 && previousAssigned > 0 then -1
  else 0

/-- Last task with the given id, mirroring `new Map(tasks.map(t => [t.id, t]))`
lookup, where later entries overwrite earlier ones. -/
def lookupLastTask (tasks : List Task) (id : String) : Option Task :=
  (tasks.filter (fun t => t.id = id)).getLast?

/-- The picking loop of the `reorderTasks` case: move named (existing,
not-yet-seen) tasks to the front in request order. Returns the picked
prefix and the set of picked ids. -/
def reorderPick (tasks : List Task) :
    List String → List String → List Task → List Task × List String
  | [], seen, acc => (acc, seen)
  | id :: rest, seen, acc =>
    match lookupLastTask tasks id with
    | none => reorderPick tasks rest seen acc
    | some task =>
      if seen.contains id then reorderPick tasks rest seen acc
      else reorderPick tasks rest (id :: seen) (acc ++ [task])

/-- The live reducer, extended variant (pause/resume, reorder,
always-on-top, +1 score on auto-strike, +2 on manual completion). -/
def reducer (state : AppState) (action : AppAction) : AppState :=
  match action with
  | AppAction.hydrate payload =>
    { payload with tasks := ensureAlignedTasks payload.tasks }
  | AppAction.tick now =>
    match findNextActiveIndex state.tasks with
    | none => state
    | some activeIndex =>
      let tasks := state.tasks.mapIdx (fun index task =>
        if index = activeIndex then tickTask now task else task)
      let becameStruck :=
        match state.tasks[activeIndex]?, tasks[activeIndex]? with
        | some activeTask, some newTask =>
          (match activeTask.remainingSeconds with
           | some r => r > 0
           | none => false) && newTask.terminal
        | _, _ => false
      let updatedState := { state with tasks := ensureAlignedTasks tasks }
      if becameStruck then
        { updatedState with
          stats := updateStatsOnCompletion state now
          score := state.score + 1 }
      else updatedState
  | AppAction.addTask newId title seconds now =>
    let newTask : Task :=
      { id := newId
        title := title
        createdAt := now
        updatedAt := now
        timeAssignedSeconds := seconds
        remainingSeconds := seconds
        status := some TaskStatus.pending
        history := [] }
    { state with
      tasks := ensureAlignedTasks (state.tasks ++ [newTask])
      meta := { state.meta with lastSavedAt := now } }
  | AppAction.manualComplete now =>
    match findNextActiveIndex state.tasks with
    | none => state
    | some activeIndex =>
      let tasks := state.tasks.mapIdx (fun index task =>
        if index = activeIndex then
          let remaining := task.remainingSeconds.getD 0
          { task with
            status := some TaskStatus.completed
            remainingSeconds := some 0
            completedAt := some now
            updatedAt := now
            history := task.history ++
              [{ type := HistoryType.manual_complete
                 amountSeconds := some remaining
                 atTime := now }] }
        else task)
      { state with
        score := state.score + 2
        stats := updateStatsOnCompletion state now
        tasks := ensureAlignedTasks tasks
        meta := { state.meta with lastSavedAt := now } }
  | AppAction.addTime taskId seconds now =>
    let scoreDelta := (state.tasks.map (fun task =>
      if task.id = taskId then addTimeScoreDelta seconds task else 0)).sum
    let tasks := state.tasks.map (fun task =>
      if task.id = taskId then addTimeTask seconds now task else task)
    { state with
      score := state.score + scoreDelta
      tasks := ensureAlignedTasks tasks
      meta := { state.meta with lastSavedAt := now } }
  | AppAction.updateTask taskId title seconds now =>
    let scoreDelta := (state.tasks.map (fun task =>
      if task.id = taskId then updateTaskScoreDelta seconds task else 0)).sum
    let tasks := state.tasks.map (fun task =>
      if task.id = taskId then updateTaskTask title seconds now task else task)
    { state with
      score := state.score + scoreDelta
      tasks := ensureAlignedTasks tasks
      meta := { state.meta with lastSavedAt := now } }
  | AppAction.deleteTask taskId now =>
    { state with
      tasks := ensureAlignedTasks (state.tasks.filter (fun task => task.id ≠ taskId))
      meta := { state.meta with lastSavedAt := now } }
  | AppAction.reorderTasks orderedTaskIds now =>
    if orderedTaskIds = [] then state
    else
      let picked := reorderPick state.tasks orderedTaskIds [] []
      let trailing := state.tasks.filter (fun task => !picked.2.contains task.id)
      { state with
        tasks := ensureAlignedTasks (picked.1 ++ trailing)
        meta := { state.meta with lastSavedAt := now } }
  | AppAction.syncMeta lastSavedAt appVersion =>
    { state with meta := { lastSavedAt := lastSavedAt, appVersion := appVersion } }
  | AppAction.setAlwaysOnTop value =>
    { state with preferences := { state.preferences with alwaysOnTop := value } }
  | AppAction.pauseTask taskId now =>
    { state with
      tasks := state.tasks.map (fun task =>
        if task.id = taskId then { task with isPaused := some true, updatedAt := now }
        else task)
      meta := { state.meta with lastSavedAt := now } }
  | AppAction.resumeTask taskId now =>
    { state with
      tasks := state.tasks.map (fun task =>
        if task.id = taskId then { task with isPaused := some false, updatedAt := now }
        else task)
      meta := { state.meta with lastSavedAt := now } }

/-- The `addTime` case of the EARLIER reducer variant: remaining and
assigned increase, terminal statuses are never revived, `completedAt` is
never cleared, and the score is decremented unconditionally — even when
no task matches `taskId`. -/
def addTimeV1 (state : AppState) (taskId : String) (seconds now : Int) : AppState :=
  let tasks := state.tasks.map (fun task =>
    if task.id = taskId then
      let totalAssigned := task.timeAssignedSeconds.getD 0 + seconds
      let remaining := task.effectiveRemaining + seconds
      let status := if task.terminal then task.status.getD TaskStatus.pending
        else TaskStatus.in_progress
      { task with
        timeAssignedSeconds := some totalAssigned
        remainingSeconds := some remaining
        updatedAt := now
        status := some status
        history := task.history ++
          [{ type := HistoryType.add_time, amountSeconds := some seconds, atTime := now }] }
    else task)
  { state with
    score := state.score - 1
    tasks := ensureAlignedTasks tasks
    meta := { state.meta with lastSavedAt := now } }

/-- Dispatching `tick` a given number of times, every tick carrying the
same timestamp. -/
def tickN (now : Int) : Nat → AppState → AppState
  | 0, state => state
  | n + 1, state => tickN now n (reducer state (AppAction.tick now))

/-- A task is normalized when the defaults pass leaves it unchanged. -/
def Task.normalized (t : Task) : Prop :=
  ensureTaskDefaults t = t

instance (t : Task) : Decidable t.normalized := by
  unfold Task.normalized; infer_instance

/-- Erase the `amountSeconds` payload of every history entry; used to
compare task lists up to the recorded amounts. -/
def Task.eraseAmounts (t : Task) : Task :=
  { t with history := t.history.map (fun e => { e with amountSeconds := none }) }

/-- Simulation relation between tasks of the catch-up engine and the
tick replay: every field agrees except that (i) recorded history
`amountSeconds` may differ and (ii) the status of a non-terminal task
may differ (realignment recomputes it deterministically); terminality
itself, and the status of terminal tasks, agree. -/
def TaskSim (a b : Task) : Prop :=
  a.id = b.id ∧ a.title = b.title ∧ a.createdAt = b.createdAt ∧
  a.updatedAt = b.updatedAt ∧ a.completedAt = b.completedAt ∧
  a.timeAssignedSeconds = b.timeAssignedSeconds ∧
  a.remainingSeconds = b.remainingSeconds ∧ a.isPaused = b.isPaused ∧
  a.history.map (fun e => { e with amountSeconds := none }) =
    b.history.map (fun e => { e with amountSeconds := none }) ∧
  a.terminal = b.terminal ∧
  (a.terminal = true → a.status = b.status)

/-- Pointwise simulation of task lists. -/
def ListSim (ts₁ ts₂ : List Task) : Prop :=
  List.Forall₂ TaskSim ts₁ ts₂

/-- Number of struck tasks. -/
def countStruck (tasks : List Task) : Nat :=
  tasks.countP (fun t => t.status = some TaskStatus.struck)

/-- The single-active-task invariant: whenever a non-terminal task is
followed (in queue order) by another non-terminal task, the later one is
`pending`. Consequently at most one task is `in_progress`, and it can
only be the first non-terminal task. -/
def TasksAligned (tasks : List Task) : Prop :=
  List.Pairwise
    (fun a b => a.terminal = false → b.terminal = false →
      b.status = some TaskStatus.pending) tasks

/-! ## Theorems -/

theorem ensureTaskDefaults_idem (T : Task) :
    ensureTaskDefaults (ensureTaskDefaults T) = ensureTaskDefaults T := by
  unfold ensureTaskDefaults
  cases hs : T.status <;>
    cases ha : T.timeAssignedSeconds <;>
      cases hr : T.remainingSeconds <;>
        simp [hs, ha, hr]

/-- C8: The task-defaults normalizer is idempotent: applying
`ensureTaskDefaults` twice returns exactly the result of applying it
once (in particular the status, remaining seconds and history agree). -/
theorem ensureTaskDefaults_idempotent (T : Task) :
    ensureTaskDefaults (ensureTaskDefaults T) = ensureTaskDefaults T :=
  ensureTaskDefaults_idem T

/-- C6: rehydrating the two-task document (first task non-terminal with
5 remaining seconds, second pending with a 20-second budget and no
remaining field) across an 8-second gap strikes the first task with a
single `auto_complete` entry of 5 seconds, leaves the second task
`in_progress` with 17 seconds remaining, and increments
`totalCompleted` by one. -/
theorem rehydrate_two_task_catchup :
    let t1 : Task :=
      { id := "a", title := "one", createdAt := 0, updatedAt := 0
        timeAssignedSeconds := some 5, remainingSeconds := some 5
        status := some TaskStatus.in_progress, history := [] }
    let t2 : Task :=
      { id := "b", title := "two", createdAt := 0, updatedAt := 0
        timeAssignedSeconds := some 20, remainingSeconds := none
        status := some TaskStatus.pending, history := [] }
    let raw : RawState :=
      { tasks := some [t1, t2]
        stats := some { totalCompleted := some 3, todayCompleted := some 1,
                        lastCompletionDate := some 0 }
        meta := some { lastSavedAt := some 0, appVersion := some "1.0.0" } }
    let result := rehydrateState raw "1.0.0" 8000
    result.tasks.map (fun t => (t.status, t.remainingSeconds)) =
      [(some TaskStatus.struck, some 0), (some TaskStatus.in_progress, some 17)] ∧
    result.tasks.map Task.history =
      [[{ type := HistoryType.auto_complete, amountSeconds := some 5, atTime := 8000 }], []] ∧
    result.stats.totalCompleted = 4 := by
  decide

/-! ## Termination of the catch-up loop -/

theorem findNextActiveIndex_some {tasks : List Task} {i : Nat}
    (h : findNextActiveIndex tasks = some i) :
    ∃ task, tasks[i]? = some task ∧ task.terminal = false := by
  induction tasks generalizing i with
  | nil => simp [findNextActiveIndex] at h
  | cons t ts ih =>
    by_cases ht : t.terminal = true
    · simp [findNextActiveIndex, ht] at h
      obtain ⟨j, hj, rfl⟩ := h
      simpa using ih hj
    · simp [findNextActiveIndex, ht] at h
      subst h
      exact ⟨t, by simp, by simpa using ht⟩

theorem countNonTerminal_set {tasks : List Task} {i : Nat} {a b : Task}
    (h : tasks[i]? = some a) :
    countNonTerminal (tasks.set i b) + (if a.terminal then 0 else 1) =
      countNonTerminal tasks + (if b.terminal then 0 else 1) := by
  induction tasks generalizing i with
  | nil => simp at h
  | cons t ts ih =>
    cases i with
    | zero =>
      have ht : t = a := by simpa using h
      subst ht
      simp only [List.set_cons_zero, countNonTerminal, List.countP_cons]
      cases htt : t.terminal <;> cases htn : b.terminal <;> simp [htt, htn]
    | succ n =>
      have h₂ : ts[n]? = some a := by simpa using h
      have := ih h₂
      simp only [List.set_cons_succ, countNonTerminal, List.countP_cons] at this ⊢
      cases ht : t.terminal <;> simp [ht] at this ⊢ <;> omega

theorem countNonTerminal_pos {tasks : List Task} {i : Nat} {task : Task}
    (h : tasks[i]? = some task) (hterm : task.terminal = false) :
    0 < countNonTerminal tasks := by
  induction tasks generalizing i with
  | nil => simp at h
  | cons t ts ih =>
    cases i with
    | zero =>
      have ht : t = task := by simpa using h
      subst ht
      simp [countNonTerminal, List.countP_cons, hterm]
    | succ n =>
      have h₂ : ts[n]? = some task := by simpa using h
      have := ih h₂
      simp only [countNonTerminal, List.countP_cons]
      simp only [countNonTerminal] at this
      omega

theorem autoAdvanceGo_fuel_irrelevant (now : Int) :
    ∀ (fuel₁ fuel₂ : Nat) (tasks : List Task) (stats : Stats) (s : Int),
      countNonTerminal tasks < fuel₁ → countNonTerminal tasks < fuel₂ →
        autoAdvanceGo now fuel₁ tasks stats s = autoAdvanceGo now fuel₂ tasks stats s := by
  intro fuel₁
  induction fuel₁ with
  | zero => intro fuel₂ tasks stats s h₁ _; omega
  | succ f ih =>
    intro fuel₂ tasks stats s h₁ h₂
    cases fuel₂ with
    | zero => omega
    | succ g =>
      simp only [autoAdvanceGo]
      by_cases hs : s > 0
      · simp only [hs, if_true]
        cases hfind : findNextActiveIndex tasks with
        | none => rfl
        | some i =>
          obtain ⟨task, htask, hterm⟩ := findNextActiveIndex_some hfind
          simp only [htask]
          by_cases hrem : task.effectiveRemaining ≤ 0
          · simp only [hrem, if_true]
          · simp only [hrem, if_false]
            by_cases hge : s ≥ task.effectiveRemaining
            · simp only [hge, if_true]
              have hset := countNonTerminal_set (b := strikeTask task task.effectiveRemaining now) htask
              have hstruck : (strikeTask task task.effectiveRemaining now).terminal = true := by
                simp [strikeTask, Task.terminal]
              rw [hterm, hstruck] at hset
              simp only [Bool.false_eq_true, if_false, if_true] at hset
              have hpos := countNonTerminal_pos htask hterm
              apply ih
              · omega
              · omega
            · simp only [hge, if_false]
      · simp only [hs, if_false]

/-- C9: the catch-up loop terminates: the iteration budget
`countNonTerminal tasks + 1` always suffices, because every iteration
either consumes the whole elapsed budget (and returns) or permanently
strikes one of finitely many non-terminal tasks. Hence any larger fuel
gives the same result and the engine is a well-defined total function. -/
theorem autoAdvanceGo_terminates (now : Int) (tasks : List Task) (stats : Stats)
    (secondsRemaining : Int) (fuel : Nat) (h : countNonTerminal tasks < fuel) :
    autoAdvanceGo now fuel tasks stats secondsRemaining =
      autoAdvanceGo now (countNonTerminal tasks + 1) tasks stats secondsRemaining := by
  exact autoAdvanceGo_fuel_irrelevant now fuel (countNonTerminal tasks + 1) tasks stats
    secondsRemaining h (Nat.lt_succ_self _)

/-- Witness for C9 at a concrete input: a one-task queue with a large
fuel bound computes the same result as with the canonical bound. -/
theorem autoAdvanceGo_terminates_witness :
    let task : Task :=
      { id := "w", title := "w", createdAt := 0, updatedAt := 0
        timeAssignedSeconds := some 4, remainingSeconds := some 4
        status := some TaskStatus.in_progress, history := [] }
    let stats : Stats := { totalCompleted := 0, todayCompleted := 0, lastCompletionDate := none }
    countNonTerminal [task] < 30 ∧
      autoAdvanceGo 1000 30 [task] stats 9 =
        autoAdvanceGo 1000 (countNonTerminal [task] + 1) [task] stats 9 := by
  exact ⟨by decide, autoAdvanceGo_terminates 1000 _ _ 9 30 (by decide)⟩

/-! ## Structure preservation for normalization and realignment -/

theorem map_id_of_fixed {α : Type} {f : α → α} :
    ∀ {l : List α}, (∀ x ∈ l, f x = x) → l.map f = l
  | [], _ => rfl
  | x :: xs, h => by
    simp only [List.map_cons, h x (by simp)]
    rw [map_id_of_fixed (fun y hy => h y (by simp [hy]))]

theorem ensureTaskDefaults_fixed {t : Task} (hs : t.status.isSome)
    (hr : t.timeAssignedSeconds.isSome → t.remainingSeconds.isSome) :
    ensureTaskDefaults t = t := by
  obtain ⟨tid, ttl, tca, tua, tco, tas, tre, tst, tpa, thi⟩ := t
  simp only at hs hr
  unfold ensureTaskDefaults
  cases tst with
  | none => simp at hs
  | some s =>
    cases tas with
    | none => simp
    | some a =>
      have := hr (by simp)
      cases tre with
      | none => simp at this
      | some r => simp

theorem ensureTaskDefaults_remaining_of_fixed {t : Task}
    (h : ensureTaskDefaults t = t) :
    t.timeAssignedSeconds.isSome → t.remainingSeconds.isSome := by
  intro ha
  by_contra hr
  have hproj := congrArg Task.remainingSeconds h
  rw [Option.not_isSome_iff_eq_none] at hr
  obtain ⟨a, ha₂⟩ := Option.isSome_iff_exists.mp ha
  unfold ensureTaskDefaults at hproj
  simp [ha₂, hr] at hproj

theorem ensureTaskDefaults_statusUpdate {t : Task} (h : ensureTaskDefaults t = t)
    (s : TaskStatus) :
    ensureTaskDefaults { t with status := some s } = { t with status := some s } := by
  apply ensureTaskDefaults_fixed (by simp)
  intro ha
  show t.remainingSeconds.isSome
  exact ensureTaskDefaults_remaining_of_fixed h (by exact ha)

theorem ensureTaskDefaults_effectiveRemaining (t : Task) :
    (ensureTaskDefaults t).effectiveRemaining = t.effectiveRemaining := by
  unfold ensureTaskDefaults Task.effectiveRemaining
  cases h₂ : t.timeAssignedSeconds <;> cases h₃ : t.remainingSeconds <;> simp [h₂, h₃]

theorem ensureTaskDefaults_terminal (t : Task) :
    (ensureTaskDefaults t).terminal = t.terminal := by
  unfold ensureTaskDefaults Task.terminal
  cases h₁ : t.status <;>
    cases h₂ : t.timeAssignedSeconds <;> cases h₃ : t.remainingSeconds <;> simp [h₁, h₂, h₃]

theorem ensureTaskDefaults_struck (t : Task) :
    ((ensureTaskDefaults t).status = some TaskStatus.struck) ↔
      (t.status = some TaskStatus.struck) := by
  unfold ensureTaskDefaults
  cases h₁ : t.status <;>
    cases h₂ : t.timeAssignedSeconds <;> cases h₃ : t.remainingSeconds <;> simp [h₁, h₂, h₃]

theorem realignGo_idem (ts : List Task) :
    ∀ b, realignGo b (realignGo b ts) = realignGo b ts := by
  induction ts with
  | nil => intro b; rfl
  | cons t ts ih =>
    intro b
    by_cases ht : t.terminal = true
    · simp only [realignGo, ht, if_true, ih]
    · simp only [realignGo, ht, Bool.false_eq_true, if_false]
      cases b with
      | true =>
        have hterm : ({ t with status := some TaskStatus.pending } : Task).terminal = false := by
          simp [Task.terminal]
        simp only [if_true, realignGo, hterm, Bool.false_eq_true, if_false, ih]
      | false =>
        set s := if t.effectiveRemaining > 0 then TaskStatus.in_progress else TaskStatus.pending with hsdef
        have hterm : ({ t with status := some s } : Task).terminal = false := by
          rcases hsdef with _
          by_cases hrem : t.effectiveRemaining > 0 <;> simp [Task.terminal, hsdef, hrem]
        have heff : ({ t with status := some s } : Task).effectiveRemaining = t.effectiveRemaining := rfl
        simp only [Bool.false_eq_true, if_false, realignGo, hterm, heff, ih]

theorem realignGo_map_effectiveRemaining (ts : List Task) :
    ∀ b, (realignGo b ts).map Task.effectiveRemaining = ts.map Task.effectiveRemaining := by
  induction ts with
  | nil => intro b; rfl
  | cons t ts ih =>
    intro b
    by_cases ht : t.terminal = true <;>
      cases b <;> simp [realignGo, ht, ih, Task.effectiveRemaining]

theorem realignGo_map_struck (ts : List Task) :
    ∀ b, (realignGo b ts).map (fun t => t.status = some TaskStatus.struck) =
      ts.map (fun t => t.status = some TaskStatus.struck) := by
  induction ts with
  | nil => intro b; rfl
  | cons t ts ih =>
    intro b
    by_cases ht : t.terminal = true
    · simp [realignGo, ht, ih]
    · have hns : ¬ t.status = some TaskStatus.struck := by
        intro hcon
        simp [Task.terminal, hcon] at ht
      cases b with
      | true => simp [realignGo, ht, ih, hns]
      | false =>
        by_cases hrem : t.effectiveRemaining > 0 <;> simp [realignGo, ht, hrem, ih, hns]

theorem realignGo_map_terminal (ts : List Task) :
    ∀ b, (realignGo b ts).map Task.terminal = ts.map Task.terminal := by
  induction ts with
  | nil => intro b; rfl
  | cons t ts ih =>
    intro b
    by_cases ht : t.terminal = true
    · simp [realignGo, ht, ih]
    · rw [Bool.not_eq_true] at ht
      have hp : ({ t with status := some TaskStatus.pending } : Task).terminal = false := by
        simp [Task.terminal]
      have hip : ({ t with status := some TaskStatus.in_progress } : Task).terminal = false := by
        simp [Task.terminal]
      cases b with
      | true => simp [realignGo, ht, ih, hp]
      | false =>
        by_cases hrem : t.effectiveRemaining > 0 <;>
          simp [realignGo, ht, hrem, ih, hp, hip]

theorem realignGo_normalized {ts : List Task} (h : ∀ y ∈ ts, ensureTaskDefaults y = y) :
    ∀ b, ∀ x ∈ realignGo b ts, ensureTaskDefaults x = x := by
  induction ts with
  | nil => intro b x hx; simp [realignGo] at hx
  | cons t ts ih =>
    intro b x hx
    have hhead := h t (by simp)
    have htail : ∀ y ∈ ts, ensureTaskDefaults y = y := fun y hy => h y (by simp [hy])
    by_cases ht : t.terminal = true
    · simp only [realignGo, ht, if_true, List.mem_cons] at hx
      rcases hx with rfl | hx
      · exact hhead
      · exact ih htail b x hx
    · cases b with
      | true =>
        simp only [realignGo, ht, Bool.false_eq_true, if_false, if_true, List.mem_cons] at hx
        rcases hx with rfl | hx
        · exact ensureTaskDefaults_statusUpdate hhead _
        · exact ih htail true x hx
      | false =>
        simp only [realignGo, ht, Bool.false_eq_true, if_false, List.mem_cons] at hx
        rcases hx with rfl | hx
        · exact ensureTaskDefaults_statusUpdate hhead _
        · exact ih htail true x hx

/-! ## Stats accounting of the catch-up engine -/

theorem countP_set {p : Task → Bool} :
    ∀ {tasks : List Task} {i : Nat} {a b : Task},
      tasks[i]? = some a →
        (tasks.set i b).countP p + (if p a then 1 else 0) =
          tasks.countP p + (if p b then 1 else 0) := by
  intro tasks
  induction tasks with
  | nil => intro i a b h; simp at h
  | cons t ts ih =>
    intro i a b h
    cases i with
    | zero =>
      have ht : t = a := by simpa using h
      subst ht
      simp only [List.set_cons_zero, List.countP_cons]
      cases htt : p t <;> cases htn : p b <;> simp [htt, htn]
    | succ n =>
      have h₂ : ts[n]? = some a := by simpa using h
      have := ih (b := b) h₂
      simp only [List.set_cons_succ, List.countP_cons]
      cases ht : p t <;> simp [ht] <;> omega

theorem countStruck_realignGo (ts : List Task) :
    ∀ b, countStruck (realignGo b ts) = countStruck ts := by
  induction ts with
  | nil => intro b; rfl
  | cons t ts ih =>
    intro b
    simp only [countStruck] at ih ⊢
    by_cases ht : t.terminal = true
    · simp [realignGo, ht, List.countP_cons, ih]
    · have hns : ¬ t.status = some TaskStatus.struck := by
        intro hcon
        simp [Task.terminal, hcon] at ht
      rw [Bool.not_eq_true] at ht
      cases b with
      | true => simp [realignGo, ht, List.countP_cons, ih, hns]
      | false =>
        by_cases hrem : t.effectiveRemaining > 0 <;>
          simp [realignGo, ht, hrem, List.countP_cons, ih, hns]

theorem countStruck_map_defaults (ts : List Task) :
    countStruck (ts.map ensureTaskDefaults) = countStruck ts := by
  induction ts with
  | nil => rfl
  | cons t ts ih =>
    simp only [List.map_cons, countStruck, List.countP_cons] at ih ⊢
    rw [ih]
    by_cases hs : t.status = some TaskStatus.struck
    · simp [(ensureTaskDefaults_struck t).mpr hs, hs]
    · have : ¬ (ensureTaskDefaults t).status = some TaskStatus.struck :=
        fun hc => hs ((ensureTaskDefaults_struck t).mp hc)
      simp [this, hs]

theorem strikeStats_totalCompleted (stats : Stats) (now : Int) :
    (strikeStats stats now).totalCompleted = stats.totalCompleted + 1 := by
  unfold strikeStats
  by_cases h : stats.lastCompletionDate = some (toISODateKey now) <;> simp [h]

theorem strikeStats_lastCompletionDate (stats : Stats) (now : Int) :
    (strikeStats stats now).lastCompletionDate = some (toISODateKey now) := by
  unfold strikeStats
  by_cases h : stats.lastCompletionDate = some (toISODateKey now) <;> simp [h]

theorem autoAdvanceGo_stats (now : Int) :
    ∀ (fuel : Nat) (tasks : List Task) (stats : Stats) (s : Int),
      (autoAdvanceGo now fuel tasks stats s).2.totalCompleted +
          (countStruck tasks : Int) =
        stats.totalCompleted +
          (countStruck (autoAdvanceGo now fuel tasks stats s).1 : Int) ∧
      ((autoAdvanceGo now fuel tasks stats s).2 = stats ∨
        (autoAdvanceGo now fuel tasks stats s).2.lastCompletionDate =
          some (toISODateKey now)) := by
  intro fuel
  induction fuel with
  | zero => intro tasks stats s; simp [autoAdvanceGo]
  | succ f ih =>
    intro tasks stats s
    simp only [autoAdvanceGo]
    by_cases hs : s > 0
    · simp only [hs, if_true]
      cases hfind : findNextActiveIndex tasks with
      | none => simp
      | some i =>
        obtain ⟨task₀, htask₀, hterm₀⟩ := findNextActiveIndex_some hfind
        simp only [htask₀]
        have hnstruck : ¬ task₀.status = some TaskStatus.struck := by
          intro hcon
          simp [Task.terminal, hcon] at hterm₀
        by_cases hrem : task₀.effectiveRemaining ≤ 0
        · simp only [hrem, if_true]
          have hset := countP_set (p := fun t => t.status = some TaskStatus.struck)
            (b := task₀) htask₀
          have hcount : countStruck (tasks.set i task₀) = countStruck tasks := by
            unfold countStruck
            omega
          refine ⟨?_, Or.inl trivial⟩
          simp [hcount]
        · simp only [hrem, if_false]
          by_cases hge : s ≥ task₀.effectiveRemaining
          · simp only [hge, if_true]
            have ihx := ih (tasks.set i (strikeTask task₀ task₀.effectiveRemaining now))
              (strikeStats stats now) (s - task₀.effectiveRemaining)
            have hset := countP_set (p := fun t => t.status = some TaskStatus.struck)
              (b := strikeTask task₀ task₀.effectiveRemaining now) htask₀
            have hstruckNew :
                ((fun t => decide (t.status = some TaskStatus.struck))
                  (strikeTask task₀ task₀.effectiveRemaining now)) = true := by
              simp [strikeTask]
            have hcount : countStruck
                (tasks.set i (strikeTask task₀ task₀.effectiveRemaining now)) =
                countStruck tasks + 1 := by
              unfold countStruck
              simp only [hstruckNew, hnstruck] at hset
              simp at hset
              omega
            constructor
            · have h₁ := ihx.1
              rw [hcount, strikeStats_totalCompleted] at h₁
              push_cast at h₁ ⊢
              omega
            · rcases ihx.2 with heq | hdate
              · right
                rw [heq]
                exact strikeStats_lastCompletionDate stats now
              · right; exact hdate
          · simp only [hge, if_false]
            have hset := countP_set (p := fun t => t.status = some TaskStatus.struck)
              (b := { task₀ with
                remainingSeconds := some (task₀.effectiveRemaining - s)
                updatedAt := now
                status := some TaskStatus.in_progress }) htask₀
            have hcount : countStruck (tasks.set i { task₀ with
                remainingSeconds := some (task₀.effectiveRemaining - s)
                updatedAt := now
                status := some TaskStatus.in_progress }) = countStruck tasks := by
              unfold countStruck
              simp only [hnstruck] at hset
              simp at hset
              omega
            refine ⟨?_, Or.inl trivial⟩
            simp [hcount]
    · simp only [hs, if_false]
      simp

theorem autoAdvance_stats (state : AppState) (elapsed now : Int) :
    (autoAdvance state elapsed now).2.totalCompleted + (countStruck state.tasks : Int) =
      state.stats.totalCompleted + (countStruck (autoAdvance state elapsed now).1 : Int) ∧
    ((autoAdvance state elapsed now).2 = state.stats ∨
      (autoAdvance state elapsed now).2.lastCompletionDate = some (toISODateKey now)) := by
  unfold autoAdvance
  obtain ⟨h1, h2⟩ := autoAdvanceGo_stats now
    (countNonTerminal (state.tasks.map ensureTaskDefaults) + 1)
    (state.tasks.map ensureTaskDefaults) state.stats elapsed
  constructor
  · simpa [realignTaskStatuses, countStruck_realignGo, countStruck_map_defaults] using h1
  · exact h2

/-- C5: rehydration never touches the persisted score (defaulted to 0),
even when the catch-up engine strikes tasks; the always-on-top
preference is likewise carried over (defaulted to true). Statistics are
nevertheless maintained per strike: `totalCompleted` grows by exactly
the number of newly struck tasks, and whenever the stats changed at all,
`lastCompletionDate` records the rehydration instant's date key. -/
theorem rehydrate_score_stats_frame (raw : RawState) (v : String) (now : Int) :
    (rehydrateState raw v now).score = raw.score.getD 0 ∧
    (rehydrateState raw v now).preferences.alwaysOnTop =
      (raw.preferences.bind RawPrefs.alwaysOnTop).getD true ∧
    (rehydrateState raw v now).stats.totalCompleted +
        (countStruck ((raw.tasks.getD []).map ensureTaskDefaults) : Int) =
      (raw.stats.bind RawStats.totalCompleted).getD 0 +
        (countStruck (rehydrateState raw v now).tasks : Int) ∧
    ((rehydrateState raw v now).stats =
        { totalCompleted := (raw.stats.bind RawStats.totalCompleted).getD 0
          todayCompleted := (raw.stats.bind RawStats.todayCompleted).getD 0
          lastCompletionDate := raw.stats.bind RawStats.lastCompletionDate } ∨
      (rehydrateState raw v now).stats.lastCompletionDate = some (toISODateKey now)) := by
  have haux := autoAdvance_stats
    { score := raw.score.getD 0
      tasks := (raw.tasks.getD []).map ensureTaskDefaults
      stats :=
        { totalCompleted := (raw.stats.bind RawStats.totalCompleted).getD 0
          todayCompleted := (raw.stats.bind RawStats.todayCompleted).getD 0
          lastCompletionDate := raw.stats.bind RawStats.lastCompletionDate }
      meta :=
        { lastSavedAt := (raw.meta.bind RawMeta.lastSavedAt).getD now
          appVersion := v }
      preferences :=
        { alwaysOnTop := (raw.preferences.bind RawPrefs.alwaysOnTop).getD true } }
    (max 0 (Int.fdiv (now - (raw.meta.bind RawMeta.lastSavedAt).getD now) 1000)) now
  simp only [rehydrateState]
  split
  · refine ⟨rfl, rfl, ?_, ?_⟩
    · have := haux.1
      simp only [realignTaskStatuses, countStruck_realignGo] at this ⊢
      exact this
    · exact haux.2
  · refine ⟨rfl, rfl, ?_, Or.inl rfl⟩
    simp [realignTaskStatuses, countStruck_realignGo, countStruck_map_defaults]

/-! ## Clock anomalies: future lastSavedAt behaves as zero elapsed -/

/-- C7: when the persisted `lastSavedAt` lies strictly in the future of
the rehydration instant, rehydration behaves exactly as if
`lastSavedAt` were `now` (zero elapsed): same result state, every
task's effective remaining time untouched, no task newly struck, and
the stats equal the defaulted persisted stats. -/
theorem rehydrate_future_lastSaved (raw : RawState) (v : String) (now L : Int)
    (m : RawMeta) (hm : raw.meta = some m) (hL : m.lastSavedAt = some L)
    (hfut : now < L) :
    rehydrateState raw v now =
      rehydrateState { raw with meta := some { m with lastSavedAt := some now } } v now ∧
    (rehydrateState raw v now).tasks.map Task.effectiveRemaining =
      (raw.tasks.getD []).map Task.effectiveRemaining ∧
    (rehydrateState raw v now).tasks.map (fun t => t.status = some TaskStatus.struck) =
      (raw.tasks.getD []).map (fun t => t.status = some TaskStatus.struck) ∧
    (rehydrateState raw v now).stats =
      { totalCompleted := (raw.stats.bind RawStats.totalCompleted).getD 0
        todayCompleted := (raw.stats.bind RawStats.todayCompleted).getD 0
        lastCompletionDate := raw.stats.bind RawStats.lastCompletionDate } := by
  have hbind : raw.meta.bind RawMeta.lastSavedAt = some L := by
    rw [hm]
    simpa using hL
  have hfd : Int.fdiv (now - L) 1000 < 0 :=
    Int.fdiv_neg' (by omega) (by norm_num)
  have h1 : ¬ (0 < max 0 (Int.fdiv (now - (raw.meta.bind RawMeta.lastSavedAt).getD now) 1000)) := by
    rw [hbind]
    simp only [Option.getD_some]
    omega
  have h2 : ¬ (0 < max 0 (Int.fdiv
      (now - (({ raw with meta := some { m with lastSavedAt := some now } } :
        RawState).meta.bind RawMeta.lastSavedAt).getD now) 1000)) := by
    simp
  refine ⟨?_, ?_, ?_, ?_⟩
  · simp only [rehydrateState]
    rw [if_neg h1, if_neg h2]
  · simp only [rehydrateState]
    rw [if_neg h1]
    simp only [realignTaskStatuses, realignGo_map_effectiveRemaining, List.map_map]
    simp [Function.comp_def, ensureTaskDefaults_effectiveRemaining]
  · simp only [rehydrateState]
    rw [if_neg h1]
    simp only [realignTaskStatuses, realignGo_map_struck, List.map_map]
    simp [Function.comp_def, ensureTaskDefaults_struck]
  · simp only [rehydrateState]
    rw [if_neg h1]

/-- Witness for C7 at a concrete input: one task, saved 4 seconds in
the future. -/
theorem rehydrate_future_lastSaved_witness :
    let task : Task :=
      { id := "w", title := "w", createdAt := 0, updatedAt := 0
        timeAssignedSeconds := some 7, remainingSeconds := some 7
        status := some TaskStatus.in_progress, history := [] }
    let raw : RawState :=
      { tasks := some [task]
        meta := some { lastSavedAt := some 5000, appVersion := some "1" } }
    raw.meta = some { lastSavedAt := some 5000, appVersion := some "1" } ∧
    (1000 : Int) < 5000 ∧
    (rehydrateState raw "1" 1000 =
      rehydrateState { raw with meta := some { lastSavedAt := some 1000, appVersion := some "1" } } "1" 1000 ∧
    (rehydrateState raw "1" 1000).tasks.map Task.effectiveRemaining =
      (raw.tasks.getD []).map Task.effectiveRemaining ∧
    (rehydrateState raw "1" 1000).tasks.map (fun t => t.status = some TaskStatus.struck) =
      (raw.tasks.getD []).map (fun t => t.status = some TaskStatus.struck) ∧
    (rehydrateState raw "1" 1000).stats =
      { totalCompleted := (raw.stats.bind RawStats.totalCompleted).getD 0
        todayCompleted := (raw.stats.bind RawStats.todayCompleted).getD 0
        lastCompletionDate := raw.stats.bind RawStats.lastCompletionDate }) :=
  ⟨rfl, by norm_num,
    rehydrate_future_lastSaved _ "1" 1000 5000 _ rfl rfl (by norm_num)⟩

/-! ## Rehydration is idempotent at a fixed instant -/

theorem autoAdvanceGo_normalized (now : Int) :
    ∀ (fuel : Nat) (tasks : List Task) (stats : Stats) (s : Int),
      (∀ x ∈ tasks, ensureTaskDefaults x = x) →
        ∀ x ∈ (autoAdvanceGo now fuel tasks stats s).1, ensureTaskDefaults x = x := by
  intro fuel
  induction fuel with
  | zero => intro tasks stats s h x hx; exact h x hx
  | succ f ih =>
    intro tasks stats s h x hx
    simp only [autoAdvanceGo] at hx
    by_cases hs : s > 0
    · simp only [hs, if_true] at hx
      cases hfind : findNextActiveIndex tasks with
      | none => rw [hfind] at hx; exact h x hx
      | some i =>
        obtain ⟨task₀, htask₀, hterm₀⟩ := findNextActiveIndex_some hfind
        rw [hfind] at hx
        simp only [htask₀] at hx
        by_cases hrem : task₀.effectiveRemaining ≤ 0
        · simp only [hrem, if_true] at hx
          rcases List.mem_or_eq_of_mem_set hx with hmem | rfl
          · exact h x hmem
          · exact h _ (List.getElem?_mem htask₀)
        · simp only [hrem, if_false] at hx
          by_cases hge : s ≥ task₀.effectiveRemaining
          · simp only [hge, if_true] at hx
            refine ih _ _ _ ?_ x hx
            intro y hy
            rcases List.mem_or_eq_of_mem_set hy with hmem | rfl
            · exact h y hmem
            · exact ensureTaskDefaults_fixed (by simp [strikeTask]) (by simp [strikeTask])
          · simp only [hge, if_false] at hx
            rcases List.mem_or_eq_of_mem_set hx with hmem | rfl
            · exact h x hmem
            · exact ensureTaskDefaults_fixed (by simp) (by simp)
    · simp only [hs, if_false] at hx
      exact h x hx

theorem rehydrateState_tasks_normalized (raw : RawState) (v : String) (now : Int) :
    ∀ x ∈ (rehydrateState raw v now).tasks, ensureTaskDefaults x = x := by
  have hbase : ∀ x ∈ (raw.tasks.getD []).map ensureTaskDefaults,
      ensureTaskDefaults x = x := by
    intro x hx
    obtain ⟨y, _, rfl⟩ := List.mem_map.mp hx
    exact ensureTaskDefaults_idem y
  simp only [rehydrateState]
  split
  · intro x hx
    refine realignGo_normalized ?_ false x hx
    simp only [autoAdvance]
    intro y hy
    refine realignGo_normalized ?_ false y hy
    refine autoAdvanceGo_normalized now _ _ _ _ ?_
    intro z hz
    obtain ⟨w, _, rfl⟩ := List.mem_map.mp hz
    exact ensureTaskDefaults_idem w
  · intro x hx
    exact realignGo_normalized hbase false x hx

theorem rehydrateState_meta (raw : RawState) (v : String) (now : Int) :
    (rehydrateState raw v now).meta = { lastSavedAt := now, appVersion := v } := by
  simp only [rehydrateState]

theorem rehydrateState_tasks_realigned (raw : RawState) (v : String) (now : Int) :
    realignTaskStatuses (rehydrateState raw v now).tasks =
      (rehydrateState raw v now).tasks := by
  simp only [rehydrateState]
  split <;> exact realignGo_idem _ false

theorem rehydrateState_zero_elapsed (raw : RawState) (v : String) (now : Int)
    (h : (raw.meta.bind RawMeta.lastSavedAt).getD now = now) :
    rehydrateState raw v now =
      { score := raw.score.getD 0
        tasks := realignTaskStatuses ((raw.tasks.getD []).map ensureTaskDefaults)
        stats :=
          { totalCompleted := (raw.stats.bind RawStats.totalCompleted).getD 0
            todayCompleted := (raw.stats.bind RawStats.todayCompleted).getD 0
            lastCompletionDate := raw.stats.bind RawStats.lastCompletionDate }
        meta := { lastSavedAt := now, appVersion := v }
        preferences :=
          { alwaysOnTop := (raw.preferences.bind RawPrefs.alwaysOnTop).getD true } } := by
  simp only [rehydrateState, h]
  rw [Int.sub_self]
  norm_num

/-- C10: rehydration is idempotent at a fixed instant: feeding the
rehydrated state back through `rehydrateState` with the same app version
and the same instant reproduces it exactly — the freshly stamped
`lastSavedAt` yields zero elapsed time, and normalization and
realignment fix the already-produced task list. -/
theorem rehydrate_idempotent (raw : RawState) (v : String) (now : Int) :
    rehydrateState (AppState.toRaw (rehydrateState raw v now)) v now =
      rehydrateState raw v now := by
  have hmeta := rehydrateState_meta raw v now
  have hmapid : (rehydrateState raw v now).tasks.map ensureTaskDefaults =
      (rehydrateState raw v now).tasks :=
    map_id_of_fixed (rehydrateState_tasks_normalized raw v now)
  have hrealign := rehydrateState_tasks_realigned raw v now
  rw [rehydrateState_zero_elapsed (AppState.toRaw (rehydrateState raw v now)) v now
    (by simp [AppState.toRaw, hmeta])]
  simp only [AppState.toRaw, Option.getD_some]
  show ({ score := (rehydrateState raw v now).score
          tasks := realignTaskStatuses
            ((rehydrateState raw v now).tasks.map ensureTaskDefaults)
          stats :=
            { totalCompleted := (rehydrateState raw v now).stats.totalCompleted
              todayCompleted := (rehydrateState raw v now).stats.todayCompleted
              lastCompletionDate := (rehydrateState raw v now).stats.lastCompletionDate }
          meta := { lastSavedAt := now, appVersion := v }
          preferences :=
            { alwaysOnTop := (rehydrateState raw v now).preferences.alwaysOnTop } } :
        AppState) = rehydrateState raw v now
  rw [hmapid, hrealign, ← hmeta]

/-! ## The single-active-task invariant -/

theorem realignGo_true_pending (ts : List Task) :
    ∀ x ∈ realignGo true ts, x.terminal = false →
      x.status = some TaskStatus.pending := by
  induction ts with
  | nil => intro x hx; simp [realignGo] at hx
  | cons t ts ih =>
    intro x hx
    by_cases ht : t.terminal = true
    · simp only [realignGo, ht, if_true, List.mem_cons] at hx
      rcases hx with rfl | hx
      · intro hc; simp [ht] at hc
      · exact ih x hx
    · rw [Bool.not_eq_true] at ht
      simp only [realignGo, ht, Bool.false_eq_true, if_false, if_true,
        List.mem_cons] at hx
      rcases hx with rfl | hx
      · intro _; rfl
      · exact ih x hx

theorem tasksAligned_of_forall {l : List Task}
    (h : ∀ x ∈ l, x.terminal = false → x.status = some TaskStatus.pending) :
    TasksAligned l := by
  induction l with
  | nil => exact List.Pairwise.nil
  | cons t ts ih =>
    refine List.Pairwise.cons ?_ (ih fun x hx => h x (by simp [hx]))
    intro y hy _ hyterm
    exact h y (by simp [hy]) hyterm

theorem tasksAligned_realignGo (ts : List Task) :
    ∀ b, TasksAligned (realignGo b ts) := by
  induction ts with
  | nil => intro b; exact List.Pairwise.nil
  | cons t ts ih =>
    intro b
    by_cases ht : t.terminal = true
    · simp only [realignGo, ht, if_true]
      refine List.Pairwise.cons ?_ (ih b)
      intro y _ htf
      simp [ht] at htf
    · rw [Bool.not_eq_true] at ht
      cases b with
      | true =>
        simp only [realignGo, ht, Bool.false_eq_true, if_false, if_true]
        refine List.Pairwise.cons ?_
          (tasksAligned_of_forall (realignGo_true_pending ts))
        intro y hy _ hyterm
        exact realignGo_true_pending ts y hy hyterm
      | false =>
        simp only [realignGo, ht, Bool.false_eq_true, if_false]
        refine List.Pairwise.cons ?_
          (tasksAligned_of_forall (realignGo_true_pending ts))
        intro y hy _ hyterm
        exact realignGo_true_pending ts y hy hyterm

theorem tasksAligned_ensureAligned (ts : List Task) :
    TasksAligned (ensureAlignedTasks ts) :=
  tasksAligned_realignGo _ false

theorem findNextActiveIndex_none {ts : List Task}
    (h : findNextActiveIndex ts = none) : ∀ t ∈ ts, t.terminal = true := by
  induction ts with
  | nil => simp
  | cons t ts ih =>
    by_cases ht : t.terminal = true
    · simp only [findNextActiveIndex, ht, if_true] at h
      intro x hx
      rcases List.mem_cons.mp hx with rfl | hx
      · exact ht
      · exact ih (by simpa using h) x hx
    · simp [findNextActiveIndex, ht] at h

theorem tasksAligned_map_status {f : Task → Task}
    (hf : ∀ t, (f t).status = t.status) {ts : List Task} (h : TasksAligned ts) :
    TasksAligned (ts.map f) := by
  unfold TasksAligned at h ⊢
  rw [List.pairwise_map]
  refine h.imp ?_
  intro a b hab ha hb
  have hterm : ∀ t, (f t).terminal = t.terminal := by
    intro t
    unfold Task.terminal
    rw [hf]
  rw [hf b]
  refine hab ?_ ?_
  · rw [← hterm a]; exact ha
  · rw [← hterm b]; exact hb

theorem tasksAligned_all_terminal {ts : List Task}
    (h : ∀ t ∈ ts, t.terminal = true) : TasksAligned ts := by
  induction ts with
  | nil => exact List.Pairwise.nil
  | cons t ts ih =>
    refine List.Pairwise.cons ?_ (ih fun x hx => h x (by simp [hx]))
    intro y _ htf
    rw [h t (by simp)] at htf
    cases htf

theorem reducer_preserves_aligned (S : AppState) (a : AppAction)
    (h : TasksAligned S.tasks) : TasksAligned (reducer S a).tasks := by
  cases a with
  | hydrate p => exact tasksAligned_ensureAligned _
  | tick now =>
    simp only [reducer]
    cases hfind : findNextActiveIndex S.tasks with
    | none => exact h
    | some i =>
      simp only []
      split <;> exact tasksAligned_ensureAligned _
  | addTask newId title seconds now => exact tasksAligned_ensureAligned _
  | manualComplete now =>
    simp only [reducer]
    cases hfind : findNextActiveIndex S.tasks with
    | none => exact h
    | some i => exact tasksAligned_ensureAligned _
  | addTime taskId seconds now => exact tasksAligned_ensureAligned _
  | updateTask taskId title seconds now => exact tasksAligned_ensureAligned _
  | deleteTask taskId now => exact tasksAligned_ensureAligned _
  | reorderTasks ids now =>
    simp only [reducer]
    split
    · exact h
    · exact tasksAligned_ensureAligned _
  | syncMeta lastSavedAt appVersion => exact h
  | setAlwaysOnTop value => exact h
  | pauseTask taskId now =>
    refine tasksAligned_map_status ?_ h
    intro t
    by_cases hid : t.id = taskId <;> simp [hid]
  | resumeTask taskId now =>
    refine tasksAligned_map_status ?_ h
    intro t
    by_cases hid : t.id = taskId <;> simp [hid]

theorem rehydrateState_aligned (raw : RawState) (v : String) (now : Int) :
    TasksAligned (rehydrateState raw v now).tasks := by
  simp only [rehydrateState]
  split <;> exact tasksAligned_realignGo _ false

theorem aligned_countP_in_progress {ts : List Task} (h : TasksAligned ts) :
    ts.countP (fun t => t.status = some TaskStatus.in_progress) ≤ 1 := by
  induction ts with
  | nil => simp
  | cons t ts ih =>
    have h₂ := List.pairwise_cons.mp h
    by_cases hp : t.status = some TaskStatus.in_progress
    · have hzero : ts.countP (fun t => t.status = some TaskStatus.in_progress) = 0 := by
        rw [List.countP_eq_zero]
        intro y hy hyp
        have hy₂ : y.status = some TaskStatus.in_progress := by simpa using hyp
        have htermt : t.terminal = false := by simp [Task.terminal, hp]
        have htermy : y.terminal = false := by simp [Task.terminal, hy₂]
        have := h₂.1 y hy htermt htermy
        rw [hy₂] at this
        cases this
      simp [List.countP_cons, hp, hzero]
    · have := ih h₂.2
      simp only [List.countP_cons]
      simp [hp]
      omega

theorem aligned_in_progress_first {ts : List Task} (h : TasksAligned ts) :
    ∀ (i : Nat) (task : Task), ts[i]? = some task →
      task.status = some TaskStatus.in_progress →
        findNextActiveIndex ts = some i := by
  induction ts with
  | nil => intro i task hti; simp at hti
  | cons t ts ih =>
    intro i task hti hst
    have h₂ := List.pairwise_cons.mp h
    cases i with
    | zero =>
      have heq : t = task := by simpa using hti
      subst heq
      have htf : t.terminal = false := by simp [Task.terminal, hst]
      simp [findNextActiveIndex, htf]
    | succ n =>
      have hti₂ : ts[n]? = some task := by simpa using hti
      have hfind := ih h₂.2 n task hti₂ hst
      by_cases ht : t.terminal = true
      · simp [findNextActiveIndex, ht, hfind]
      · rw [Bool.not_eq_true] at ht
        have htermtask : task.terminal = false := by simp [Task.terminal, hst]
        have := h₂.1 task (List.getElem?_mem hti₂) ht htermtask
        rw [hst] at this
        cases this

theorem foldl_reducer_aligned (acts : List AppAction) :
    ∀ S : AppState, TasksAligned S.tasks →
      TasksAligned (acts.foldl reducer S).tasks := by
  induction acts with
  | nil => intro S h; exact h
  | cons a acts ih =>
    intro S h
    exact ih _ (reducer_preserves_aligned S a h)

/-- C2: every state reachable from a rehydrated state by any sequence of
reducer actions has at most one `in_progress` task, that task is the
first task in queue order whose status is neither `completed` nor
`struck` (it is exactly the task `findNextActiveIndex` designates), and
every later non-terminal task is `pending`. -/
theorem single_active_task_invariant (raw : RawState) (v : String) (t₀ : Int)
    (acts : List AppAction) :
    (acts.foldl reducer (rehydrateState raw v t₀)).tasks.countP
        (fun task => task.status = some TaskStatus.in_progress) ≤ 1 ∧
    (∀ (i : Nat) (task : Task),
      (acts.foldl reducer (rehydrateState raw v t₀)).tasks[i]? = some task →
        task.status = some TaskStatus.in_progress →
          findNextActiveIndex
            (acts.foldl reducer (rehydrateState raw v t₀)).tasks = some i) ∧
    TasksAligned (acts.foldl reducer (rehydrateState raw v t₀)).tasks := by
  have haligned :=
    foldl_reducer_aligned acts (rehydrateState raw v t₀)
      (rehydrateState_aligned raw v t₀)
  exact ⟨aligned_countP_in_progress haligned,
    aligned_in_progress_first haligned, haligned⟩

/-! ## Actions referencing a nonexistent taskId -/

/-- C3 counterexample: dispatching `addTime` with a taskId that matches
no task does NOT return a state equal to the input. In the earlier
reducer variant the score is even decremented unconditionally; in the
extended variant `meta.lastSavedAt` is refreshed. -/
theorem ghost_taskId_not_noop_counterexample :
    let S := createEmptyState "1" 0
    addTimeV1 S "ghost" 60 500 ≠ S ∧
    (addTimeV1 S "ghost" 60 500).score = S.score - 1 ∧
    reducer S (AppAction.addTime "ghost" 60 500) ≠ S ∧
    (reducer S (AppAction.addTime "ghost" 60 500)).meta.lastSavedAt = 500 := by
  decide

/-- C3 amended: actions referencing a nonexistent `taskId` never throw
and leave score, tasks and stats unchanged in the extended reducer
(provided the state's tasks are already normalized and aligned, which
every reachable state satisfies); the only change is the refreshed
`meta.lastSavedAt`. The earlier `addTime` variant additionally
decrements the score by one. -/
theorem ghost_taskId_noop (S : AppState) (tid : String) (title : String)
    (seconds now : Int) (sec? : Option Int)
    (hmiss : ∀ task ∈ S.tasks, task.id ≠ tid)
    (hfix : ensureAlignedTasks S.tasks = S.tasks) :
    reducer S (AppAction.addTime tid seconds now) =
      { S with meta := { S.meta with lastSavedAt := now } } ∧
    reducer S (AppAction.updateTask tid title sec? now) =
      { S with meta := { S.meta with lastSavedAt := now } } ∧
    reducer S (AppAction.deleteTask tid now) =
      { S with meta := { S.meta with lastSavedAt := now } } ∧
    reducer S (AppAction.pauseTask tid now) =
      { S with meta := { S.meta with lastSavedAt := now } } ∧
    reducer S (AppAction.resumeTask tid now) =
      { S with meta := { S.meta with lastSavedAt := now } } ∧
    addTimeV1 S tid seconds now =
      { S with score := S.score - 1
               meta := { S.meta with lastSavedAt := now } } := by
  have hmapid : ∀ (g : Task → Task),
      S.tasks.map (fun task => if task.id = tid then g task else task) = S.tasks := by
    intro g
    apply map_id_of_fixed
    intro x hx
    rw [if_neg (hmiss x hx)]
  have hsum : ∀ (d : Task → Int),
      (S.tasks.map (fun task => if task.id = tid then d task else 0)).sum = 0 := by
    intro d
    apply List.sum_eq_zero
    intro x hx
    obtain ⟨y, hy, rfl⟩ := List.mem_map.mp hx
    rw [if_neg (hmiss y hy)]
  have hfilter : S.tasks.filter (fun task => task.id ≠ tid) = S.tasks := by
    rw [List.filter_eq_self]
    intro x hx
    simpa using hmiss x hx
  refine ⟨?_, ?_, ?_, ?_, ?_, ?_⟩
  · simp only [reducer, hmapid, hsum, hfix]
    simp
  · simp only [reducer, hmapid, hsum, hfix]
    simp
  · simp only [reducer, hfilter, hfix]
  · simp only [reducer, hmapid]
  · simp only [reducer, hmapid]
  · simp only [addTimeV1, hmapid, hfix]

/-- Witness for C3 at a concrete input: an aligned one-task state and a
taskId matching nothing. -/
theorem ghost_taskId_noop_witness :
    let task : Task :=
      { id := "a", title := "t", createdAt := 0, updatedAt := 0
        timeAssignedSeconds := some 9, remainingSeconds := some 9
        status := some TaskStatus.in_progress, history := [] }
    let S : AppState :=
      { score := 2
        tasks := [task]
        stats := { totalCompleted := 0, todayCompleted := 0, lastCompletionDate := none }
        meta := { lastSavedAt := 0, appVersion := "1" }
        preferences := { alwaysOnTop := true } }
    (∀ u ∈ S.tasks, u.id ≠ "zzz") ∧
    ensureAlignedTasks S.tasks = S.tasks ∧
    reducer S (AppAction.addTime "zzz" 60 500) =
      { S with meta := { S.meta with lastSavedAt := 500 } } := by
  refine ⟨by decide, by decide, ?_⟩
  exact (ghost_taskId_noop _ "zzz" "t" 60 500 none (by decide) (by decide)).1

/-! ## addTime on an existing task -/

theorem realignGo_length (ts : List Task) :
    ∀ b, (realignGo b ts).length = ts.length := by
  induction ts with
  | nil => intro b; rfl
  | cons t ts ih =>
    intro b
    by_cases ht : t.terminal = true
    · simp [realignGo, ht, ih]
    · rw [Bool.not_eq_true] at ht
      cases b <;> by_cases hrem : t.effectiveRemaining > 0 <;>
        simp [realignGo, ht, hrem, ih]

theorem realignGo_append (xs ys : List Task) :
    ∀ b, realignGo b (xs ++ ys) =
      realignGo b xs ++ realignGo (b || xs.any (fun t => !t.terminal)) ys := by
  induction xs with
  | nil => intro b; simp [realignGo]
  | cons t xs ih =>
    intro b
    by_cases ht : t.terminal = true
    · simp [realignGo, ht, List.any_cons, ih b]
    · rw [Bool.not_eq_true] at ht
      cases b with
      | true => simp [realignGo, ht, List.any_cons, ih true]
      | false => simp [realignGo, ht, List.any_cons, ih true]

/-- C4 counterexample: adding time to a struck task that sits AFTER
another non-terminal task revives it only to `pending`, not
`in_progress` — realignment demotes it because it is not the first
non-terminal task in queue order. -/
theorem addTime_revive_demoted_counterexample :
    let p : Task :=
      { id := "p", title := "p", createdAt := 0, updatedAt := 0
        timeAssignedSeconds := some 5, remainingSeconds := some 5
        status := some TaskStatus.in_progress, history := [] }
    let q : Task :=
      { id := "q", title := "q", createdAt := 0, updatedAt := 0
        timeAssignedSeconds := some 10, remainingSeconds := some 0
        status := some TaskStatus.struck, completedAt := some 7, history := [] }
    let S : AppState :=
      { score := 0
        tasks := [p, q]
        stats := { totalCompleted := 1, todayCompleted := 1, lastCompletionDate := some 0 }
        meta := { lastSavedAt := 0, appVersion := "1" }
        preferences := { alwaysOnTop := true } }
    (reducer S (AppAction.addTime "q" 60 999)).tasks.map
        (fun t => (t.status, t.remainingSeconds, t.completedAt)) =
      [(some TaskStatus.in_progress, some 5, none),
       (some TaskStatus.pending, some 60, none)] ∧
    ¬ ∃ t ∈ (reducer S (AppAction.addTime "q" 60 999)).tasks,
        t.id = "q" ∧ t.status = some TaskStatus.in_progress := by
  decide

/-- C4 amended: `addTime(taskId, seconds, now)` (positive `seconds`)
targeting the existing task `T` increases its assigned and effective
remaining time by `seconds`, appends exactly one `add_time` history
entry, decreases the score by 1 iff `T` already had a positive assigned
budget, and leaves stats unchanged. If `T` was terminal and its new
remaining time is positive, `completedAt` is cleared and the task is
revived — to `in_progress` when no earlier task is non-terminal, and to
`pending` otherwise (status realignment demotes it). -/
theorem addTime_existing_task (S : AppState) (pre post : List Task) (T : Task)
    (seconds now : Int)
    (htasks : S.tasks = pre ++ T :: post)
    (hid : ∀ u ∈ pre ++ post, u.id ≠ T.id)
    (hsec : 0 < seconds) :
    (reducer S (AppAction.addTime T.id seconds now)).score =
      S.score + (if 0 < T.timeAssignedSeconds.getD 0 then -1 else 0) ∧
    (reducer S (AppAction.addTime T.id seconds now)).stats = S.stats ∧
    ∃ T₂, (reducer S (AppAction.addTime T.id seconds now)).tasks[pre.length]? =
        some T₂ ∧
      T₂.timeAssignedSeconds = some (T.timeAssignedSeconds.getD 0 + seconds) ∧
      T₂.remainingSeconds = some (T.effectiveRemaining + seconds) ∧
      T₂.history = T.history ++
        [{ type := HistoryType.add_time, amountSeconds := some seconds, atTime := now }] ∧
      (T.terminal = true → 0 < T.effectiveRemaining + seconds →
        T₂.completedAt = none ∧
        T₂.status = some (if pre.any (fun u => !u.terminal) then TaskStatus.pending
          else TaskStatus.in_progress)) := by
  have hpre : ∀ u ∈ pre, u.id ≠ T.id := fun u hu => hid u (List.mem_append_left _ hu)
  have hpost : ∀ u ∈ post, u.id ≠ T.id := fun u hu => hid u (List.mem_append_right _ hu)
  set T' := addTimeTask seconds now T with hT'
  have hmap : S.tasks.map
      (fun task => if task.id = T.id then addTimeTask seconds now task else task) =
      pre ++ T' :: post := by
    rw [htasks, List.map_append, List.map_cons, if_pos rfl]
    rw [map_id_of_fixed (fun u hu => if_neg (hpre u hu)),
      map_id_of_fixed (fun u hu => if_neg (hpost u hu))]
  have hsum : (S.tasks.map
      (fun task => if task.id = T.id then addTimeScoreDelta seconds task else 0)).sum =
      (if 0 < T.timeAssignedSeconds.getD 0 then -1 else 0) := by
    rw [htasks, List.map_append, List.map_cons, if_pos rfl, List.sum_append,
      List.sum_cons]
    rw [List.sum_eq_zero (fun x hx => by
        obtain ⟨y, hy, rfl⟩ := List.mem_map.mp hx
        rw [if_neg (hpre y hy)]),
      List.sum_eq_zero (fun x hx => by
        obtain ⟨y, hy, rfl⟩ := List.mem_map.mp hx
        rw [if_neg (hpost y hy)])]
    have : addTimeScoreDelta seconds T =
        (if 0 < T.timeAssignedSeconds.getD 0 then -1 else 0) := by
      unfold addTimeScoreDelta
      by_cases ha : 0 < T.timeAssignedSeconds.getD 0
      · simp [ha, hsec]
      · simp [ha, hsec]
    rw [this]
    ring
  have hTfix : ensureTaskDefaults T' = T' :=
    ensureTaskDefaults_fixed (by simp [hT', addTimeTask]) (by simp [hT', addTimeTask])
  have hensure : ensureAlignedTasks (pre ++ T' :: post) =
      realignGo false (pre.map ensureTaskDefaults) ++
        realignGo ((pre.map ensureTaskDefaults).any (fun t => !t.terminal))
          (T' :: post.map ensureTaskDefaults) := by
    unfold ensureAlignedTasks realignTaskStatuses
    rw [List.map_append, List.map_cons, hTfix, realignGo_append, Bool.false_or]
  have hany : (pre.map ensureTaskDefaults).any (fun t => !t.terminal) =
      pre.any (fun u => !u.terminal) := by
    rw [List.any_map]
    simp [Function.comp_def, ensureTaskDefaults_terminal]
  have hidx : (realignGo false (pre.map ensureTaskDefaults) ++
      realignGo (pre.any (fun u => !u.terminal))
        (T' :: post.map ensureTaskDefaults))[pre.length]? =
      (realignGo (pre.any (fun u => !u.terminal))
        (T' :: post.map ensureTaskDefaults))[0]? := by
    rw [List.getElem?_append_right
      (by rw [realignGo_length, List.length_map])]
    rw [realignGo_length, List.length_map, Nat.sub_self]
  refine ⟨?_, ?_, ?_⟩
  · simp only [reducer, hsum]
  · simp only [reducer]
  · simp only [reducer, hmap, hensure, hany, hidx]
    by_cases hterm : T'.terminal = true
    · refine ⟨T', ?_, rfl, rfl, rfl, ?_⟩
      · simp [realignGo, hterm]
      · intro hT hpos
        exfalso
        have hstat : T'.status = some TaskStatus.in_progress := by
          simp only [hT', addTimeTask]
          simp [hT, hpos]
        rw [Task.terminal, hstat] at hterm
        simp at hterm
    · rw [Bool.not_eq_true] at hterm
      by_cases hc : pre.any (fun u => !u.terminal) = true
      · refine ⟨{ T' with status := some TaskStatus.pending }, ?_, rfl, rfl, rfl, ?_⟩
        · simp [realignGo, hterm, hc]
        · intro hT hpos
          refine ⟨?_, ?_⟩
          · show T'.completedAt = none
            simp only [hT', addTimeTask]
            simp [hT, hpos]
          · rw [hc]
            simp
      · rw [Bool.not_eq_true] at hc
        refine ⟨{ T' with status := some (if T'.effectiveRemaining > 0 then TaskStatus.in_progress else TaskStatus.pending) }, ?_, rfl, rfl, rfl, ?_⟩
        · simp only [realignGo, hterm, Bool.false_eq_true, if_false, hc]
          simp
        · intro hT hpos
          have heff : T'.effectiveRemaining = T.effectiveRemaining + seconds := by
            simp [hT', addTimeTask, Task.effectiveRemaining]
          refine ⟨?_, ?_⟩
          · show T'.completedAt = none
            simp only [hT', addTimeTask]
            simp [hT, hpos]
          · rw [hc, heff]
            simp [hpos]

/-- Witness for C4 at a concrete input: adding 60 seconds to the single
(struck) task of a one-task queue. -/
theorem addTime_existing_task_witness :
    let T : Task :=
      { id := "q", title := "q", createdAt := 0, updatedAt := 0
        timeAssignedSeconds := some 10, remainingSeconds := some 0
        status := some TaskStatus.struck, completedAt := some 7, history := [] }
    let S : AppState :=
      { score := 3
        tasks := [T]
        stats := { totalCompleted := 1, todayCompleted := 1, lastCompletionDate := some 0 }
        meta := { lastSavedAt := 0, appVersion := "1" }
        preferences := { alwaysOnTop := true } }
    S.tasks = [] ++ T :: [] ∧
    (0:Int) < 60 ∧
    ((reducer S (AppAction.addTime T.id 60 999)).score =
        S.score + (if 0 < T.timeAssignedSeconds.getD 0 then -1 else 0) ∧
      (reducer S (AppAction.addTime T.id 60 999)).stats = S.stats ∧
      ∃ T₂, (reducer S (AppAction.addTime T.id 60 999)).tasks[([] : List Task).length]? =
          some T₂ ∧
        T₂.timeAssignedSeconds = some (T.timeAssignedSeconds.getD 0 + 60) ∧
        T₂.remainingSeconds = some (T.effectiveRemaining + 60) ∧
        T₂.history = T.history ++
          [{ type := HistoryType.add_time, amountSeconds := some 60, atTime := 999 }] ∧
        (T.terminal = true → 0 < T.effectiveRemaining + 60 →
          T₂.completedAt = none ∧
          T₂.status = some (if ([] : List Task).any (fun u => !u.terminal)
            then TaskStatus.pending else TaskStatus.in_progress))) :=
  ⟨rfl, by norm_num,
    addTime_existing_task _ [] [] _ 60 999 rfl (by simp) (by norm_num)⟩

/-! ## Simulation machinery for the catch-up / tick correspondence -/

theorem TaskSim.tsRefl (a : Task) : TaskSim a a := by
  unfold TaskSim
  refine ⟨rfl, rfl, rfl, rfl, rfl, rfl, rfl, rfl, rfl, rfl, fun _ => rfl⟩

theorem TaskSim.effRem_eq {a b : Task} (h : TaskSim a b) :
    a.effectiveRemaining = b.effectiveRemaining := by
  obtain ⟨_, _, _, _, _, h₆, h₇, _, _, _, _⟩ := h
  unfold Task.effectiveRemaining
  rw [h₆, h₇]

theorem TaskSim.terminal_eq {a b : Task} (h : TaskSim a b) :
    a.terminal = b.terminal := h.2.2.2.2.2.2.2.2.2.1

theorem TaskSim.erase_eq {a b : Task} (h : TaskSim a b) (hs : a.status = b.status) :
    Task.eraseAmounts a = Task.eraseAmounts b := by
  obtain ⟨h₁, h₂, h₃, h₄, h₅, h₆, h₇, h₈, h₉, _, _⟩ := h
  cases a
  cases b
  simp only at h₁ h₂ h₃ h₄ h₅ h₆ h₇ h₈ h₉ hs
  simp [Task.eraseAmounts, h₁, h₂, h₃, h₄, h₅, h₆, h₇, h₈, h₉, hs]

theorem TaskSim.erase_statusUpdate {a b : Task} (h : TaskSim a b) (s : Option TaskStatus) :
    Task.eraseAmounts { a with status := s } = Task.eraseAmounts { b with status := s } := by
  obtain ⟨h₁, h₂, h₃, h₄, h₅, h₆, h₇, h₈, h₉, _, _⟩ := h
  cases a
  cases b
  simp only at h₁ h₂ h₃ h₄ h₅ h₆ h₇ h₈ h₉
  simp [Task.eraseAmounts, h₁, h₂, h₃, h₄, h₅, h₆, h₇, h₈, h₉]

theorem TaskSim.statusUpdate {a b : Task} (h : TaskSim a b) (s : TaskStatus) :
    TaskSim { a with status := some s } { b with status := some s } := by
  obtain ⟨h₁, h₂, h₃, h₄, h₅, h₆, h₇, h₈, h₉, _, _⟩ := h
  exact ⟨h₁, h₂, h₃, h₄, h₅, h₆, h₇, h₈, h₉, rfl, fun _ => rfl⟩

theorem ListSim.lsRefl (ts : List Task) : ListSim ts ts :=
  List.forall₂_same.mpr (fun x _ => TaskSim.tsRefl x)

theorem ListSim.find_eq {ts₁ ts₂ : List Task} (h : ListSim ts₁ ts₂) :
    findNextActiveIndex ts₁ = findNextActiveIndex ts₂ := by
  induction h with
  | nil => rfl
  | cons hab htail ih =>
    simp only [findNextActiveIndex, hab.terminal_eq, ih]

theorem ListSim.getElem {ts₁ ts₂ : List Task} (h : ListSim ts₁ ts₂) :
    ∀ {i : Nat} {a : Task}, ts₁[i]? = some a →
      ∃ b, ts₂[i]? = some b ∧ TaskSim a b := by
  induction h with
  | nil => intro i a ha; simp at ha
  | @cons x y l₁ l₂ hab htail ih =>
    intro i a ha
    cases i with
    | zero =>
      have hx : x = a := by simpa using ha
      subst hx
      exact ⟨y, by simp, hab⟩
    | succ n =>
      have ha₂ : l₁[n]? = some a := by simpa using ha
      obtain ⟨b, hb, hsim⟩ := ih ha₂
      exact ⟨b, by simpa using hb, hsim⟩

theorem ListSim.set {ts₁ ts₂ : List Task} (h : ListSim ts₁ ts₂)
    {a b : Task} (hab : TaskSim a b) :
    ∀ i, ListSim (ts₁.set i a) (ts₂.set i b) := by
  induction h with
  | nil => intro i; exact List.Forall₂.nil
  | cons hxy htail ih =>
    intro i
    cases i with
    | zero => exact List.Forall₂.cons hab htail
    | succ n => exact List.Forall₂.cons hxy (ih n)

theorem ListSim.count_eq {ts₁ ts₂ : List Task} (h : ListSim ts₁ ts₂) :
    countNonTerminal ts₁ = countNonTerminal ts₂ := by
  induction h with
  | nil => rfl
  | cons hab htail ih =>
    simp only [countNonTerminal, List.countP_cons] at ih ⊢
    rw [ih, hab.terminal_eq]

theorem realignGo_sim_self (ts : List Task) :
    ∀ b, ListSim ts (realignGo b ts) := by
  induction ts with
  | nil => intro b; exact List.Forall₂.nil
  | cons t ts ih =>
    intro b
    by_cases ht : t.terminal = true
    · simp only [realignGo, ht, if_true]
      exact List.Forall₂.cons (TaskSim.tsRefl t) (ih b)
    · rw [Bool.not_eq_true] at ht
      have hsim : ∀ s : TaskStatus,
          s = TaskStatus.pending ∨ s = TaskStatus.in_progress →
            TaskSim t { t with status := some s } := by
        intro s hs
        refine ⟨rfl, rfl, rfl, rfl, rfl, rfl, rfl, rfl, rfl, ?_, ?_⟩
        · rw [ht]
          rcases hs with rfl | rfl <;> simp [Task.terminal]
        · intro hcon
          rw [ht] at hcon
          cases hcon
      cases b with
      | true =>
        simp only [realignGo, ht, Bool.false_eq_true, if_false, if_true]
        exact List.Forall₂.cons (hsim _ (Or.inl rfl)) (ih true)
      | false =>
        simp only [realignGo, ht, Bool.false_eq_true, if_false]
        refine List.Forall₂.cons (hsim _ ?_) (ih true)
        by_cases hrem : t.effectiveRemaining > 0
        · simp [hrem]
        · simp [hrem]

theorem strikeTask_sim {a b : Task} (h : TaskSim a b) (ra rb now : Int) :
    TaskSim (strikeTask a ra now) (strikeTask b rb now) := by
  obtain ⟨h₁, h₂, h₃, h₄, h₅, h₆, h₇, h₈, h₉, h₁₀, h₁₁⟩ := h
  refine ⟨h₁, h₂, h₃, rfl, rfl, h₆, rfl, h₈, ?_, rfl, fun _ => rfl⟩
  simp [strikeTask, h₉]

theorem partialTask_sim {a b : Task} (h : TaskSim a b) (r now : Int) :
    TaskSim { a with remainingSeconds := some r, updatedAt := now, status := some TaskStatus.in_progress } { b with remainingSeconds := some r, updatedAt := now, status := some TaskStatus.in_progress } := by
  obtain ⟨h₁, h₂, h₃, h₄, h₅, h₆, h₇, h₈, h₉, h₁₀, h₁₁⟩ := h
  exact ⟨h₁, h₂, h₃, rfl, h₅, h₆, rfl, h₈, h₉, rfl, fun _ => rfl⟩

theorem autoAdvanceGo_sim (now : Int) :
    ∀ (fuel : Nat) (ts₁ ts₂ : List Task) (stats : Stats) (s : Int),
      ListSim ts₁ ts₂ →
        ListSim (autoAdvanceGo now fuel ts₁ stats s).1
            (autoAdvanceGo now fuel ts₂ stats s).1 ∧
          (autoAdvanceGo now fuel ts₁ stats s).2 =
            (autoAdvanceGo now fuel ts₂ stats s).2 := by
  intro fuel
  induction fuel with
  | zero => intro ts₁ ts₂ stats s h; exact ⟨h, rfl⟩
  | succ f ih =>
    intro ts₁ ts₂ stats s h
    simp only [autoAdvanceGo]
    by_cases hs : s > 0
    · simp only [hs, if_true]
      rw [← h.find_eq]
      cases hfind : findNextActiveIndex ts₁ with
      | none => exact ⟨h, rfl⟩
      | some i =>
        obtain ⟨a, ha, hterma⟩ := findNextActiveIndex_some hfind
        obtain ⟨b, hb, hab⟩ := h.getElem ha
        simp only [ha, hb]
        rw [← hab.effRem_eq]
        by_cases hrem : a.effectiveRemaining ≤ 0
        · simp only [hrem, if_true]
          exact ⟨h.set hab i, trivial⟩
        · simp only [hrem, if_false]
          by_cases hge : s ≥ a.effectiveRemaining
          · simp only [hge, if_true]
            exact ih _ _ _ _ (h.set (strikeTask_sim hab _ _ now) i)
          · simp only [hge, if_false]
            exact ⟨h.set (partialTask_sim hab _ now) i, trivial⟩
    · simp only [hs, if_false]
      exact ⟨h, trivial⟩

theorem ListSim.realign_erase {ts₁ ts₂ : List Task} (h : ListSim ts₁ ts₂) :
    ∀ b, (realignGo b ts₁).map Task.eraseAmounts =
      (realignGo b ts₂).map Task.eraseAmounts := by
  induction h with
  | nil => intro b; rfl
  | @cons x y l₁ l₂ hxy htail ih =>
    intro b
    by_cases ht : x.terminal = true
    · have hty : y.terminal = true := hxy.terminal_eq ▸ ht
      have hst : x.status = y.status := hxy.2.2.2.2.2.2.2.2.2.2 ht
      simp only [realignGo, ht, hty, if_true, List.map_cons, ih b,
        hxy.erase_eq hst]
    · rw [Bool.not_eq_true] at ht
      have hty : y.terminal = false := hxy.terminal_eq ▸ ht
      cases b with
      | true =>
        simp only [realignGo, ht, hty, Bool.false_eq_true, if_false, if_true,
          List.map_cons, ih true, hxy.erase_statusUpdate (some TaskStatus.pending)]
      | false =>
        simp only [realignGo, ht, hty, Bool.false_eq_true, if_false,
          List.map_cons, ih true, hxy.effRem_eq,
          hxy.erase_statusUpdate]

theorem ListSim.realign_erase_eq {ts₁ ts₂ : List Task} (h : ListSim ts₁ ts₂) :
    (realignTaskStatuses ts₁).map Task.eraseAmounts =
      (realignTaskStatuses ts₂).map Task.eraseAmounts :=
  h.realign_erase false

theorem list_set_self {α : Type} :
    ∀ {l : List α} {i : Nat} {a : α}, l[i]? = some a → l.set i a = l := by
  intro l
  induction l with
  | nil => intro i a h; simp at h
  | cons x xs ih =>
    intro i a h
    cases i with
    | zero =>
      have hx : x = a := by simpa using h
      subst hx
      simp
    | succ n =>
      have h₂ : xs[n]? = some a := by simpa using h
      simp [ih h₂]

theorem mapIdx_id_of {α : Type} :
    ∀ (l : List α) (f : Nat → α → α), (∀ i a, f i a = a) → l.mapIdx f = l := by
  intro l
  induction l with
  | nil => intro f hf; rfl
  | cons x xs ih =>
    intro f hf
    rw [List.mapIdx_cons, hf, ih _ (fun i a => hf (i + 1) a)]

theorem mapIdx_congr_fn {α β : Type} :
    ∀ (l : List α) (f g : Nat → α → β), (∀ i a, f i a = g i a) →
      l.mapIdx f = l.mapIdx g := by
  intro l
  induction l with
  | nil => intro f g hfg; rfl
  | cons x xs ih =>
    intro f g hfg
    rw [List.mapIdx_cons, List.mapIdx_cons, hfg,
      ih _ _ (fun i a => hfg (i + 1) a)]

theorem mapIdx_ite_eq_set (g : Task → Task) :
    ∀ (l : List Task) (i : Nat) (a : Task), l[i]? = some a →
      (l.mapIdx fun idx t => if idx = i then g t else t) = l.set i (g a) := by
  intro l
  induction l with
  | nil => intro i a h; simp at h
  | cons x xs ih =>
    intro i a h
    rw [List.mapIdx_cons]
    cases i with
    | zero =>
      have hx : x = a := by simpa using h
      subst hx
      simp only [List.set_cons_zero]
      rw [mapIdx_id_of _ _ (fun i t => by simp)]
      simp
    | succ n =>
      have h₂ : xs[n]? = some a := by simpa using h
      rw [if_neg (Nat.succ_ne_zero n).symm, List.set_cons_succ]
      rw [mapIdx_congr_fn _ _ (fun idx t => if idx = n then g t else t)
        (fun i t => by simp [Nat.succ_inj]), ih n a h₂]

theorem strikeStats_eq_updateStats (S : AppState) (now : Int) :
    strikeStats S.stats now = updateStatsOnCompletion S now := by
  unfold strikeStats updateStatsOnCompletion
  by_cases h : S.stats.lastCompletionDate = some (toISODateKey now) <;> simp [h]

theorem ensureAligned_normalized (ts : List Task) :
    ∀ x ∈ ensureAlignedTasks ts, ensureTaskDefaults x = x := by
  intro x hx
  refine realignGo_normalized ?_ false x hx
  intro y hy
  obtain ⟨w, _, rfl⟩ := List.mem_map.mp hy
  exact ensureTaskDefaults_idem w

theorem ensureAligned_of_normalized {ts : List Task}
    (h : ∀ u ∈ ts, ensureTaskDefaults u = u) :
    ensureAlignedTasks ts = realignTaskStatuses ts := by
  unfold ensureAlignedTasks
  rw [map_id_of_fixed h]

theorem TaskSim.tsSymm {a b : Task} (h : TaskSim a b) : TaskSim b a := by
  obtain ⟨h₁, h₂, h₃, h₄, h₅, h₆, h₇, h₈, h₉, h₁₀, h₁₁⟩ := h
  exact ⟨h₁.symm, h₂.symm, h₃.symm, h₄.symm, h₅.symm, h₆.symm, h₇.symm, h₈.symm,
    h₉.symm, h₁₀.symm, fun ht => (h₁₁ (h₁₀ ▸ ht)).symm⟩

theorem TaskSim.tsTrans {a b c : Task} (hab : TaskSim a b) (hbc : TaskSim b c) :
    TaskSim a c := by
  obtain ⟨h₁, h₂, h₃, h₄, h₅, h₆, h₇, h₈, h₉, h₁₀, h₁₁⟩ := hab
  obtain ⟨g₁, g₂, g₃, g₄, g₅, g₆, g₇, g₈, g₉, g₁₀, g₁₁⟩ := hbc
  exact ⟨h₁.trans g₁, h₂.trans g₂, h₃.trans g₃, h₄.trans g₄, h₅.trans g₅,
    h₆.trans g₆, h₇.trans g₇, h₈.trans g₈, h₉.trans g₉, h₁₀.trans g₁₀,
    fun ht => (h₁₁ ht).trans (g₁₁ (h₁₀ ▸ ht))⟩

theorem ListSim.lsSymm {ts₁ ts₂ : List Task} (h : ListSim ts₁ ts₂) :
    ListSim ts₂ ts₁ := by
  induction h with
  | nil => exact List.Forall₂.nil
  | cons hab htail ih => exact List.Forall₂.cons hab.tsSymm ih

theorem ListSim.lsTrans {ts₁ ts₂ ts₃ : List Task}
    (h₁ : ListSim ts₁ ts₂) (h₂ : ListSim ts₂ ts₃) : ListSim ts₁ ts₃ := by
  induction h₁ generalizing ts₃ with
  | nil => cases h₂; exact List.Forall₂.nil
  | cons hab htail ih =>
    cases h₂ with
    | cons hbc htail₂ => exact List.Forall₂.cons (hab.tsTrans hbc) (ih htail₂)

theorem autoAdvanceGo_noactive {ts : List Task} (now : Int)
    (hfind : findNextActiveIndex ts = none) (fuel : Nat) (stats : Stats) (s : Int) :
    autoAdvanceGo now (fuel + 1) ts stats s = (ts, stats) := by
  simp only [autoAdvanceGo]
  by_cases hs : s > 0
  · simp only [hs, if_true, hfind]
  · simp only [hs, if_false]

theorem autoAdvanceGo_stall {ts : List Task} {i : Nat} {task : Task} (now : Int)
    (hfind : findNextActiveIndex ts = some i) (ha : ts[i]? = some task)
    (heff : task.effectiveRemaining ≤ 0) (fuel : Nat) (stats : Stats) (s : Int) :
    autoAdvanceGo now (fuel + 1) ts stats s = (ts, stats) := by
  simp only [autoAdvanceGo]
  by_cases hs : s > 0
  · simp only [hs, if_true, hfind, ha, heff, if_true, list_set_self ha]
  · simp only [hs, if_false]

theorem findNextActiveIndex_set {ts : List Task} {i : Nat} {a : Task}
    (hfind : findNextActiveIndex ts = some i) (ha : a.terminal = false) :
    findNextActiveIndex (ts.set i a) = some i := by
  induction ts generalizing i with
  | nil => simp [findNextActiveIndex] at hfind
  | cons t ts ih =>
    by_cases ht : t.terminal = true
    · simp only [findNextActiveIndex, ht, if_true] at hfind
      obtain ⟨j, hj, rfl⟩ : ∃ j, findNextActiveIndex ts = some j ∧ j + 1 = i := by
        simpa using hfind
      simp only [List.set_cons_succ, findNextActiveIndex, ht, if_true, ih hj]
      rfl
    · simp only [findNextActiveIndex, ht, Bool.false_eq_true, if_false] at hfind
      have h0 : i = 0 := by
        injection hfind with h
        omega
      subst h0
      simp [findNextActiveIndex, ha]

theorem realignGo_getElem {ts : List Task} :
    ∀ {c : Bool} {i : Nat} {x : Task}, (realignGo c ts)[i]? = some x →
      ∃ y, ts[i]? = some y ∧
        (x = y ∨ ∃ s : TaskStatus, x = { y with status := some s }) := by
  induction ts with
  | nil => intro c i x hx; simp [realignGo] at hx
  | cons t ts ih =>
    intro c i x hx
    by_cases ht : t.terminal = true
    · simp only [realignGo, ht, if_true] at hx
      cases i with
      | zero =>
        have : t = x := by simpa using hx
        exact ⟨t, by simp, Or.inl this.symm⟩
      | succ n =>
        obtain ⟨y, hy, hor⟩ := ih (by simpa using hx)
        exact ⟨y, by simpa using hy, hor⟩
    · rw [Bool.not_eq_true] at ht
      cases c with
      | true =>
        simp only [realignGo, ht, Bool.false_eq_true, if_false, if_true] at hx
        cases i with
        | zero =>
          have : { t with status := some TaskStatus.pending } = x := by simpa using hx
          exact ⟨t, by simp, Or.inr ⟨TaskStatus.pending, this.symm⟩⟩
        | succ n =>
          obtain ⟨y, hy, hor⟩ := ih (by simpa using hx)
          exact ⟨y, by simpa using hy, hor⟩
      | false =>
        simp only [realignGo, ht, Bool.false_eq_true, if_false] at hx
        cases i with
        | zero =>
          have hhd : { t with status := some (if t.effectiveRemaining > 0
              then TaskStatus.in_progress else TaskStatus.pending) } = x := by
            simpa using hx
          exact ⟨t, by simp, Or.inr ⟨_, hhd.symm⟩⟩
        | succ n =>
          obtain ⟨y, hy, hor⟩ := ih (by simpa using hx)
          exact ⟨y, by simpa using hy, hor⟩

theorem realignGo_mem_shape {ts : List Task} {c : Bool} {x : Task}
    (hx : x ∈ realignGo c ts) :
    ∃ y ∈ ts, x = y ∨ ∃ s : TaskStatus, x = { y with status := some s } := by
  obtain ⟨i, hi⟩ := List.mem_iff_getElem?.mp hx
  obtain ⟨y, hy, hor⟩ := realignGo_getElem hi
  exact ⟨y, List.getElem?_mem hy, hor⟩

theorem tickTask_isPaused (now : Int) (u : Task) :
    (tickTask now u).isPaused = u.isPaused := by
  unfold tickTask
  cases hr : u.remainingSeconds with
  | none => rfl
  | some r =>
    by_cases h1 : r ≤ 0
    · simp [h1]
    · simp only [h1, if_false]
      by_cases h2 : u.isPaused = some true
      · simp [h2]
      · simp only [h2, if_false]
        by_cases h3 : r - 1 > 0 <;> simp [h3]

theorem ensureTaskDefaults_isPaused (u : Task) :
    (ensureTaskDefaults u).isPaused = u.isPaused := by
  unfold ensureTaskDefaults
  cases h₁ : u.status <;>
    cases h₂ : u.timeAssignedSeconds <;> cases h₃ : u.remainingSeconds <;>
      simp [h₁, h₂, h₃]

theorem ensureAligned_isPaused {ts : List Task}
    (h : ∀ u ∈ ts, u.isPaused ≠ some true) :
    ∀ u ∈ ensureAlignedTasks ts, u.isPaused ≠ some true := by
  intro u hu
  obtain ⟨y, hy, hor⟩ := realignGo_mem_shape hu
  obtain ⟨w, hw, rfl⟩ := List.mem_map.mp hy
  have hww := h w hw
  rcases hor with rfl | ⟨s, rfl⟩
  · rw [ensureTaskDefaults_isPaused]
    exact hww
  · show (ensureTaskDefaults w).isPaused ≠ some true
    rw [ensureTaskDefaults_isPaused]
    exact hww

theorem autoAdvanceGo_nonpos {s : Int} (hs : ¬ s > 0) (now : Int) (fuel : Nat)
    (ts : List Task) (stats : Stats) :
    autoAdvanceGo now fuel ts stats s = (ts, stats) := by
  cases fuel with
  | zero => rfl
  | succ f => simp only [autoAdvanceGo, hs, if_false]

theorem autoAdvanceGo_strike_step {ts : List Task} {i : Nat} {task : Task} (now : Int)
    (hfind : findNextActiveIndex ts = some i) (ha : ts[i]? = some task)
    (heff : ¬ task.effectiveRemaining ≤ 0) (fuel : Nat) (stats : Stats) {s : Int}
    (hs : s > 0) (hge : s ≥ task.effectiveRemaining) :
    autoAdvanceGo now (fuel + 1) ts stats s =
      autoAdvanceGo now fuel
        (ts.set i (strikeTask task task.effectiveRemaining now))
        (strikeStats stats now) (s - task.effectiveRemaining) := by
  simp only [autoAdvanceGo, hs, if_true, hfind, ha, heff, if_false, hge, if_true]

theorem autoAdvanceGo_partial_step {ts : List Task} {i : Nat} {task : Task} (now : Int)
    (hfind : findNextActiveIndex ts = some i) (ha : ts[i]? = some task)
    (heff : ¬ task.effectiveRemaining ≤ 0) (fuel : Nat) (stats : Stats) {s : Int}
    (hs : s > 0) (hlt : ¬ s ≥ task.effectiveRemaining) :
    autoAdvanceGo now (fuel + 1) ts stats s =
      (ts.set i { task with remainingSeconds := some (task.effectiveRemaining - s), updatedAt := now, status := some TaskStatus.in_progress }, stats) := by
  simp only [autoAdvanceGo, hs, if_true, hfind, ha, heff, if_false, hlt, if_false]

theorem strikeTask_sim₂ {a b : Task} (h1 : a.id = b.id) (h2 : a.title = b.title)
    (h3 : a.createdAt = b.createdAt)
    (h6 : a.timeAssignedSeconds = b.timeAssignedSeconds)
    (h8 : a.isPaused = b.isPaused)
    (h9 : a.history.map (fun e => { e with amountSeconds := none }) =
      b.history.map (fun e => { e with amountSeconds := none }))
    (ra rb now : Int) :
    TaskSim (strikeTask a ra now) (strikeTask b rb now) := by
  refine ⟨h1, h2, h3, rfl, rfl, h6, rfl, h8, ?_, rfl, fun _ => rfl⟩
  simp [strikeTask, h9]

theorem partialTask_sim₂ {a b : Task} (h1 : a.id = b.id) (h2 : a.title = b.title)
    (h3 : a.createdAt = b.createdAt) (h5 : a.completedAt = b.completedAt)
    (h6 : a.timeAssignedSeconds = b.timeAssignedSeconds)
    (h8 : a.isPaused = b.isPaused)
    (h9 : a.history.map (fun e => { e with amountSeconds := none }) =
      b.history.map (fun e => { e with amountSeconds := none }))
    (r now : Int) :
    TaskSim { a with remainingSeconds := some r, updatedAt := now, status := some TaskStatus.in_progress } { b with remainingSeconds := some r, updatedAt := now, status := some TaskStatus.in_progress } :=
  ⟨h1, h2, h3, rfl, h5, h6, rfl, h8, h9, rfl, fun _ => rfl⟩

theorem set_realign_sim {base : List Task} {mid c₁ c₂ : Task}
    (i : Nat) (hc : TaskSim c₁ c₂) :
    ListSim (base.set i c₁)
      ((realignTaskStatuses (base.set i mid)).set i c₂) := by
  have h₁ : ListSim (base.set i c₁) ((base.set i mid).set i c₂) := by
    rw [List.set_set]
    exact (ListSim.lsRefl base).set hc i
  have h₂ : ListSim ((base.set i mid).set i c₂)
      ((realignTaskStatuses (base.set i mid)).set i c₂) :=
    (realignGo_sim_self _ false).set (TaskSim.tsRefl c₂) i
  exact h₁.lsTrans h₂

theorem reducer_tick_tasks (S : AppState) (t : Int) {i : Nat} {task₀ : Task}
    (hfind : findNextActiveIndex S.tasks = some i)
    (ha : S.tasks[i]? = some task₀) :
    (reducer S (AppAction.tick t)).tasks =
      ensureAlignedTasks (S.tasks.set i (tickTask t task₀)) := by
  simp only [reducer, hfind, mapIdx_ite_eq_set _ _ _ _ ha]
  split <;> rfl

theorem reducer_tick_preserves (S : AppState) (t : Int)
    (hnorm : ∀ u ∈ S.tasks, ensureTaskDefaults u = u)
    (halign : realignTaskStatuses S.tasks = S.tasks)
    (hpause : ∀ u ∈ S.tasks, u.isPaused ≠ some true) :
    (∀ u ∈ (reducer S (AppAction.tick t)).tasks, ensureTaskDefaults u = u) ∧
    realignTaskStatuses (reducer S (AppAction.tick t)).tasks =
      (reducer S (AppAction.tick t)).tasks ∧
    (∀ u ∈ (reducer S (AppAction.tick t)).tasks, u.isPaused ≠ some true) := by
  cases hfind : findNextActiveIndex S.tasks with
  | none =>
    have hred : reducer S (AppAction.tick t) = S := by
      simp only [reducer, hfind]
    rw [hred]
    exact ⟨hnorm, halign, hpause⟩
  | some i =>
    obtain ⟨task₀, ha, hterm₀⟩ := findNextActiveIndex_some hfind
    rw [reducer_tick_tasks S t hfind ha]
    refine ⟨ensureAligned_normalized _, realignGo_idem _ false, ?_⟩
    refine ensureAligned_isPaused ?_
    intro u hu
    rcases List.mem_or_eq_of_mem_set hu with hm | rfl
    · exact hpause u hm
    · rw [tickTask_isPaused]
      exact hpause _ (List.getElem?_mem ha)

theorem catchup_step_dec (S : AppState) (N : Nat) (t : Int) (i : Nat)
    (task₀ : Task) (r : Int)
    (hnorm : ∀ u ∈ S.tasks, ensureTaskDefaults u = u)
    (hfind : findNextActiveIndex S.tasks = some i)
    (ha : S.tasks[i]? = some task₀)
    (hpause₀ : ¬ task₀.isPaused = some true)
    (hilen : i < S.tasks.length)
    (hr : task₀.remainingSeconds = some r) (hrpos : 0 < r) (hdec : r - 1 > 0) :
    (autoAdvance S ((N : Int) + 1) t).1.map Task.eraseAmounts =
      (autoAdvance (reducer S (AppAction.tick t)) (N : Int) t).1.map Task.eraseAmounts ∧
    (autoAdvance S ((N : Int) + 1) t).2 =
      (autoAdvance (reducer S (AppAction.tick t)) (N : Int) t).2 := by
  have hmapd : S.tasks.map ensureTaskDefaults = S.tasks := map_id_of_fixed hnorm
  have heffr : task₀.effectiveRemaining = r := by
    simp [Task.effectiveRemaining, hr]
  have hstall : ¬ task₀.effectiveRemaining ≤ 0 := by omega
  have hnr0 : ¬ r ≤ 0 := by omega
  have htick : tickTask t task₀ =
      { task₀ with remainingSeconds := some (r - 1), updatedAt := t, status := some TaskStatus.in_progress } := by
    simp [tickTask, hr, hpause₀, hdec, hnr0]
  have hterm₁ : ({ task₀ with remainingSeconds := some (r - 1), updatedAt := t, status := some TaskStatus.in_progress } : Task).terminal = false := by
    simp [Task.terminal]
  have hnormX : ∀ u ∈ S.tasks.set i { task₀ with remainingSeconds := some (r - 1), updatedAt := t, status := some TaskStatus.in_progress }, ensureTaskDefaults u = u := by
    intro u hu
    rcases List.mem_or_eq_of_mem_set hu with hm | rfl
    · exact hnorm u hm
    · exact ensureTaskDefaults_fixed (by simp) (by simp)
  have hred : reducer S (AppAction.tick t) =
      { S with tasks := realignTaskStatuses (S.tasks.set i { task₀ with remainingSeconds := some (r - 1), updatedAt := t, status := some TaskStatus.in_progress }) } := by
    rw [show reducer S (AppAction.tick t) = reducer S (AppAction.tick t) from rfl]
    simp only [reducer, hfind, mapIdx_ite_eq_set _ _ _ _ ha, htick,
      List.getElem?_set_self hilen, ha]
    rw [ensureAligned_of_normalized hnormX]
    simp [hr, hrpos, hterm₁]
  rw [hred]
  -- names for the two relevant lists
  have hfindX : findNextActiveIndex (S.tasks.set i { task₀ with remainingSeconds := some (r - 1), updatedAt := t, status := some TaskStatus.in_progress }) = some i :=
    findNextActiveIndex_set hfind hterm₁
  have hsimX : ListSim (S.tasks.set i { task₀ with remainingSeconds := some (r - 1), updatedAt := t, status := some TaskStatus.in_progress }) (realignTaskStatuses (S.tasks.set i { task₀ with remainingSeconds := some (r - 1), updatedAt := t, status := some TaskStatus.in_progress })) := realignGo_sim_self _ false
  have hfindRX : findNextActiveIndex (realignTaskStatuses (S.tasks.set i { task₀ with remainingSeconds := some (r - 1), updatedAt := t, status := some TaskStatus.in_progress })) = some i := by
    rw [← hsimX.find_eq]
    exact hfindX
  have hXi : (S.tasks.set i { task₀ with remainingSeconds := some (r - 1), updatedAt := t, status := some TaskStatus.in_progress })[i]? = some { task₀ with remainingSeconds := some (r - 1), updatedAt := t, status := some TaskStatus.in_progress } :=
    List.getElem?_set_self hilen
  obtain ⟨b₀, hb₀, hsimb⟩ := hsimX.getElem hXi
  have heffb : b₀.effectiveRemaining = r - 1 := by
    rw [← hsimb.effRem_eq]
    simp [Task.effectiveRemaining]
  have hnormRX : ∀ u ∈ realignTaskStatuses (S.tasks.set i { task₀ with remainingSeconds := some (r - 1), updatedAt := t, status := some TaskStatus.in_progress }), ensureTaskDefaults u = u :=
    realignGo_normalized hnormX false
  have hmapdRX : (realignTaskStatuses (S.tasks.set i { task₀ with remainingSeconds := some (r - 1), updatedAt := t, status := some TaskStatus.in_progress })).map ensureTaskDefaults = realignTaskStatuses (S.tasks.set i { task₀ with remainingSeconds := some (r - 1), updatedAt := t, status := some TaskStatus.in_progress }) :=
    map_id_of_fixed hnormRX
  have hcountRX : countNonTerminal (realignTaskStatuses (S.tasks.set i { task₀ with remainingSeconds := some (r - 1), updatedAt := t, status := some TaskStatus.in_progress })) = countNonTerminal S.tasks := by
    rw [← hsimX.count_eq]
    have := countNonTerminal_set
      (b := { task₀ with remainingSeconds := some (r - 1), updatedAt := t, status := some TaskStatus.in_progress }) ha
    have hterm₀ : task₀.terminal = false := by
      obtain ⟨u, hu, hut⟩ := findNextActiveIndex_some hfind
      rw [ha] at hu
      injection hu with hu
      rw [← hu] at hut
      exact hut
    rw [hterm₀, hterm₁] at this
    simp at this
    omega
  by_cases hbig : ((N : Int) + 1) ≥ r
  · -- both strike inside the engine
    have hNbig : (N : Int) ≥ r - 1 := by omega
    have hN0 : (N : Int) > 0 := by omega
    have hLHS : autoAdvance S ((N : Int) + 1) t =
        (realignTaskStatuses (autoAdvanceGo t (countNonTerminal S.tasks) (S.tasks.set i (strikeTask task₀ task₀.effectiveRemaining t)) (strikeStats S.stats t) (((N : Int) + 1) - task₀.effectiveRemaining)).1,
         (autoAdvanceGo t (countNonTerminal S.tasks) (S.tasks.set i (strikeTask task₀ task₀.effectiveRemaining t)) (strikeStats S.stats t) (((N : Int) + 1) - task₀.effectiveRemaining)).2) := by
      simp only [autoAdvance]
      rw [hmapd, autoAdvanceGo_strike_step t hfind ha hstall _ _ (by omega) (by omega)]
    have heffble : ¬ b₀.effectiveRemaining ≤ 0 := by omega
    have hRHS : autoAdvance { S with tasks := realignTaskStatuses (S.tasks.set i { task₀ with remainingSeconds := some (r - 1), updatedAt := t, status := some TaskStatus.in_progress }) } (N : Int) t =
        (realignTaskStatuses (autoAdvanceGo t (countNonTerminal S.tasks) ((realignTaskStatuses (S.tasks.set i { task₀ with remainingSeconds := some (r - 1), updatedAt := t, status := some TaskStatus.in_progress })).set i (strikeTask b₀ b₀.effectiveRemaining t)) (strikeStats S.stats t) ((N : Int) - b₀.effectiveRemaining)).1,
         (autoAdvanceGo t (countNonTerminal S.tasks) ((realignTaskStatuses (S.tasks.set i { task₀ with remainingSeconds := some (r - 1), updatedAt := t, status := some TaskStatus.in_progress })).set i (strikeTask b₀ b₀.effectiveRemaining t)) (strikeStats S.stats t) ((N : Int) - b₀.effectiveRemaining)).2) := by
      simp only [autoAdvance]
      rw [hmapdRX, hcountRX,
        autoAdvanceGo_strike_step t hfindRX hb₀ heffble _ _ hN0 (by omega)]
    rw [hLHS, hRHS]
    have hsimlists : ListSim
        (S.tasks.set i (strikeTask task₀ task₀.effectiveRemaining t))
        ((realignTaskStatuses (S.tasks.set i { task₀ with remainingSeconds := some (r - 1), updatedAt := t, status := some TaskStatus.in_progress })).set i (strikeTask b₀ b₀.effectiveRemaining t)) := by
      refine set_realign_sim i ?_
      exact strikeTask_sim₂ hsimb.1 hsimb.2.1 hsimb.2.2.1 hsimb.2.2.2.2.2.1
        hsimb.2.2.2.2.2.2.2.1 hsimb.2.2.2.2.2.2.2.2.1 _ _ t
    have hbudget : ((N : Int) + 1) - task₀.effectiveRemaining =
        (N : Int) - b₀.effectiveRemaining := by
      rw [heffr, heffb]
      ring
    rw [hbudget]
    obtain ⟨hts, hst⟩ := autoAdvanceGo_sim t (countNonTerminal S.tasks) _ _
      (strikeStats S.stats t) ((N : Int) - b₀.effectiveRemaining) hsimlists
    exact ⟨hts.realign_erase false, hst⟩
  · -- partial on both sides
    have hLHS : autoAdvance S ((N : Int) + 1) t =
        (realignTaskStatuses (S.tasks.set i { task₀ with remainingSeconds := some (task₀.effectiveRemaining - ((N : Int) + 1)), updatedAt := t, status := some TaskStatus.in_progress }), S.stats) := by
      simp only [autoAdvance]
      rw [hmapd, autoAdvanceGo_partial_step t hfind ha hstall _ _ (by omega) (by omega)]
    by_cases hN0 : (N : Int) > 0
    · have hRHS : autoAdvance { S with tasks := realignTaskStatuses (S.tasks.set i { task₀ with remainingSeconds := some (r - 1), updatedAt := t, status := some TaskStatus.in_progress }) } (N : Int) t =
          (realignTaskStatuses ((realignTaskStatuses (S.tasks.set i { task₀ with remainingSeconds := some (r - 1), updatedAt := t, status := some TaskStatus.in_progress })).set i { b₀ with remainingSeconds := some (b₀.effectiveRemaining - (N : Int)), updatedAt := t, status := some TaskStatus.in_progress }), S.stats) := by
        simp only [autoAdvance]
        rw [hmapdRX, hcountRX,
          autoAdvanceGo_partial_step t hfindRX hb₀ (by omega) _ _ hN0 (by omega)]
      rw [hLHS, hRHS]
      refine ⟨?_, rfl⟩
      have hsimlists : ListSim
          (S.tasks.set i { task₀ with remainingSeconds := some (task₀.effectiveRemaining - ((N : Int) + 1)), updatedAt := t, status := some TaskStatus.in_progress })
          ((realignTaskStatuses (S.tasks.set i { task₀ with remainingSeconds := some (r - 1), updatedAt := t, status := some TaskStatus.in_progress })).set i { b₀ with remainingSeconds := some (b₀.effectiveRemaining - (N : Int)), updatedAt := t, status := some TaskStatus.in_progress }) := by
        refine set_realign_sim i ?_
        have hremeq : task₀.effectiveRemaining - ((N : Int) + 1) =
            b₀.effectiveRemaining - (N : Int) := by
          rw [heffr, heffb]
          ring
        rw [hremeq]
        exact partialTask_sim₂ hsimb.1 hsimb.2.1 hsimb.2.2.1 hsimb.2.2.2.2.1
          hsimb.2.2.2.2.2.1 hsimb.2.2.2.2.2.2.2.1 hsimb.2.2.2.2.2.2.2.2.1 _ t
      exact hsimlists.realign_erase false
    · -- N = 0 : the tick result is already the final state
      have hNz : (N : Int) = 0 := by omega
      have hRHS : autoAdvance { S with tasks := realignTaskStatuses (S.tasks.set i { task₀ with remainingSeconds := some (r - 1), updatedAt := t, status := some TaskStatus.in_progress }) } (N : Int) t =
          (realignTaskStatuses (realignTaskStatuses (S.tasks.set i { task₀ with remainingSeconds := some (r - 1), updatedAt := t, status := some TaskStatus.in_progress })), S.stats) := by
        simp only [autoAdvance]
        rw [hmapdRX, autoAdvanceGo_nonpos hN0]
      rw [hLHS, hRHS]
      refine ⟨?_, rfl⟩
      have hpeq : ({ task₀ with remainingSeconds := some (task₀.effectiveRemaining - ((N : Int) + 1)), updatedAt := t, status := some TaskStatus.in_progress } : Task) =
          { task₀ with remainingSeconds := some (r - 1), updatedAt := t, status := some TaskStatus.in_progress } := by
        rw [heffr, hNz]
        norm_num
      rw [hpeq,
        show realignTaskStatuses (realignTaskStatuses (S.tasks.set i { task₀ with remainingSeconds := some (r - 1), updatedAt := t, status := some TaskStatus.in_progress })) = realignTaskStatuses (S.tasks.set i { task₀ with remainingSeconds := some (r - 1), updatedAt := t, status := some TaskStatus.in_progress }) from realignGo_idem _ false]

theorem catchup_step_strike (S : AppState) (N : Nat) (t : Int) (i : Nat)
    (task₀ : Task) (r : Int)
    (hnorm : ∀ u ∈ S.tasks, ensureTaskDefaults u = u)
    (hfind : findNextActiveIndex S.tasks = some i)
    (ha : S.tasks[i]? = some task₀)
    (hterm₀ : task₀.terminal = false)
    (hpause₀ : ¬ task₀.isPaused = some true)
    (hilen : i < S.tasks.length)
    (hr : task₀.remainingSeconds = some r) (hrpos : 0 < r) (hdec : ¬ r - 1 > 0) :
    (autoAdvance S ((N : Int) + 1) t).1.map Task.eraseAmounts =
      (autoAdvance (reducer S (AppAction.tick t)) (N : Int) t).1.map Task.eraseAmounts ∧
    (autoAdvance S ((N : Int) + 1) t).2 =
      (autoAdvance (reducer S (AppAction.tick t)) (N : Int) t).2 := by
  have hmapd : S.tasks.map ensureTaskDefaults = S.tasks := map_id_of_fixed hnorm
  have heffr : task₀.effectiveRemaining = r := by
    simp [Task.effectiveRemaining, hr]
  have hr1 : r = 1 := by omega
  have hstall : ¬ task₀.effectiveRemaining ≤ 0 := by omega
  have hnr0 : ¬ r ≤ 0 := by omega
  have htick : tickTask t task₀ =
      { task₀ with remainingSeconds := some 0, status := some TaskStatus.struck, completedAt := some t, updatedAt := t, history := task₀.history ++ [{ type := HistoryType.auto_complete, amountSeconds := some (task₀.timeAssignedSeconds.getD 0), atTime := t }] } := by
    simp [tickTask, hr, hpause₀, hdec, hnr0]
  have htermS : ({ task₀ with remainingSeconds := some 0, status := some TaskStatus.struck, completedAt := some t, updatedAt := t, history := task₀.history ++ [{ type := HistoryType.auto_complete, amountSeconds := some (task₀.timeAssignedSeconds.getD 0), atTime := t }] } : Task).terminal = true := by
    simp [Task.terminal]
  have hnormY : ∀ u ∈ S.tasks.set i { task₀ with remainingSeconds := some 0, status := some TaskStatus.struck, completedAt := some t, updatedAt := t, history := task₀.history ++ [{ type := HistoryType.auto_complete, amountSeconds := some (task₀.timeAssignedSeconds.getD 0), atTime := t }] }, ensureTaskDefaults u = u := by
    intro u hu
    rcases List.mem_or_eq_of_mem_set hu with hm | rfl
    · exact hnorm u hm
    · exact ensureTaskDefaults_fixed (by simp) (by simp)
  have hred : reducer S (AppAction.tick t) =
      { S with
        tasks := realignTaskStatuses (S.tasks.set i { task₀ with remainingSeconds := some 0, status := some TaskStatus.struck, completedAt := some t, updatedAt := t, history := task₀.history ++ [{ type := HistoryType.auto_complete, amountSeconds := some (task₀.timeAssignedSeconds.getD 0), atTime := t }] })
        stats := updateStatsOnCompletion S t
        score := S.score + 1 } := by
    simp only [reducer, hfind, mapIdx_ite_eq_set _ _ _ _ ha, htick,
      List.getElem?_set_self hilen, ha]
    rw [ensureAligned_of_normalized hnormY]
    simp [hr, hrpos, htermS]
  rw [hred]
  have hsimY : ListSim (S.tasks.set i { task₀ with remainingSeconds := some 0, status := some TaskStatus.struck, completedAt := some t, updatedAt := t, history := task₀.history ++ [{ type := HistoryType.auto_complete, amountSeconds := some (task₀.timeAssignedSeconds.getD 0), atTime := t }] }) (realignTaskStatuses (S.tasks.set i { task₀ with remainingSeconds := some 0, status := some TaskStatus.struck, completedAt := some t, updatedAt := t, history := task₀.history ++ [{ type := HistoryType.auto_complete, amountSeconds := some (task₀.timeAssignedSeconds.getD 0), atTime := t }] })) :=
    realignGo_sim_self _ false
  have hnormRY : ∀ u ∈ realignTaskStatuses (S.tasks.set i { task₀ with remainingSeconds := some 0, status := some TaskStatus.struck, completedAt := some t, updatedAt := t, history := task₀.history ++ [{ type := HistoryType.auto_complete, amountSeconds := some (task₀.timeAssignedSeconds.getD 0), atTime := t }] }), ensureTaskDefaults u = u :=
    realignGo_normalized hnormY false
  have hmapdRY : (realignTaskStatuses (S.tasks.set i { task₀ with remainingSeconds := some 0, status := some TaskStatus.struck, completedAt := some t, updatedAt := t, history := task₀.history ++ [{ type := HistoryType.auto_complete, amountSeconds := some (task₀.timeAssignedSeconds.getD 0), atTime := t }] })).map ensureTaskDefaults = realignTaskStatuses (S.tasks.set i { task₀ with remainingSeconds := some 0, status := some TaskStatus.struck, completedAt := some t, updatedAt := t, history := task₀.history ++ [{ type := HistoryType.auto_complete, amountSeconds := some (task₀.timeAssignedSeconds.getD 0), atTime := t }] }) :=
    map_id_of_fixed hnormRY
  have hKpos : 0 < countNonTerminal S.tasks := countNonTerminal_pos ha hterm₀
  have hfuel : countNonTerminal (realignTaskStatuses (S.tasks.set i { task₀ with remainingSeconds := some 0, status := some TaskStatus.struck, completedAt := some t, updatedAt := t, history := task₀.history ++ [{ type := HistoryType.auto_complete, amountSeconds := some (task₀.timeAssignedSeconds.getD 0), atTime := t }] })) + 1 = countNonTerminal S.tasks := by
    rw [← hsimY.count_eq]
    have := countNonTerminal_set
      (b := { task₀ with remainingSeconds := some 0, status := some TaskStatus.struck, completedAt := some t, updatedAt := t, history := task₀.history ++ [{ type := HistoryType.auto_complete, amountSeconds := some (task₀.timeAssignedSeconds.getD 0), atTime := t }] }) ha
    rw [hterm₀, htermS] at this
    simp at this
    omega
  have hLHS : autoAdvance S ((N : Int) + 1) t =
      (realignTaskStatuses (autoAdvanceGo t (countNonTerminal S.tasks) (S.tasks.set i (strikeTask task₀ task₀.effectiveRemaining t)) (strikeStats S.stats t) (((N : Int) + 1) - task₀.effectiveRemaining)).1,
       (autoAdvanceGo t (countNonTerminal S.tasks) (S.tasks.set i (strikeTask task₀ task₀.effectiveRemaining t)) (strikeStats S.stats t) (((N : Int) + 1) - task₀.effectiveRemaining)).2) := by
    simp only [autoAdvance]
    rw [hmapd, autoAdvanceGo_strike_step t hfind ha hstall _ _ (by omega) (by omega)]
  have hRHS : autoAdvance { S with tasks := realignTaskStatuses (S.tasks.set i { task₀ with remainingSeconds := some 0, status := some TaskStatus.struck, completedAt := some t, updatedAt := t, history := task₀.history ++ [{ type := HistoryType.auto_complete, amountSeconds := some (task₀.timeAssignedSeconds.getD 0), atTime := t }] }), stats := updateStatsOnCompletion S t, score := S.score + 1 } (N : Int) t =
      (realignTaskStatuses (autoAdvanceGo t (countNonTerminal S.tasks) (realignTaskStatuses (S.tasks.set i { task₀ with remainingSeconds := some 0, status := some TaskStatus.struck, completedAt := some t, updatedAt := t, history := task₀.history ++ [{ type := HistoryType.auto_complete, amountSeconds := some (task₀.timeAssignedSeconds.getD 0), atTime := t }] })) (updateStatsOnCompletion S t) (N : Int)).1,
       (autoAdvanceGo t (countNonTerminal S.tasks) (realignTaskStatuses (S.tasks.set i { task₀ with remainingSeconds := some 0, status := some TaskStatus.struck, completedAt := some t, updatedAt := t, history := task₀.history ++ [{ type := HistoryType.auto_complete, amountSeconds := some (task₀.timeAssignedSeconds.getD 0), atTime := t }] })) (updateStatsOnCompletion S t) (N : Int)).2) := by
    simp only [autoAdvance]
    rw [hmapdRY, hfuel]
  rw [hLHS, hRHS]
  have hbud : ((N : Int) + 1) - task₀.effectiveRemaining = (N : Int) := by
    rw [heffr, hr1]
    ring
  rw [hbud, ← strikeStats_eq_updateStats]
  have hsimlists : ListSim
      (S.tasks.set i (strikeTask task₀ task₀.effectiveRemaining t))
      (realignTaskStatuses (S.tasks.set i { task₀ with remainingSeconds := some 0, status := some TaskStatus.struck, completedAt := some t, updatedAt := t, history := task₀.history ++ [{ type := HistoryType.auto_complete, amountSeconds := some (task₀.timeAssignedSeconds.getD 0), atTime := t }] })) := by
    have hcore : TaskSim (strikeTask task₀ task₀.effectiveRemaining t)
        { task₀ with remainingSeconds := some 0, status := some TaskStatus.struck, completedAt := some t, updatedAt := t, history := task₀.history ++ [{ type := HistoryType.auto_complete, amountSeconds := some (task₀.timeAssignedSeconds.getD 0), atTime := t }] } := by
      refine ⟨rfl, rfl, rfl, rfl, rfl, rfl, rfl, rfl, ?_, rfl, fun _ => rfl⟩
      simp [strikeTask]
    exact ((ListSim.lsRefl S.tasks).set hcore i).lsTrans hsimY
  obtain ⟨hts, hst⟩ := autoAdvanceGo_sim t (countNonTerminal S.tasks) _ _
    (strikeStats S.stats t) (N : Int) hsimlists
  exact ⟨hts.realign_erase false, hst⟩

theorem catchup_step_stall (S : AppState) (N : Nat) (t : Int) (i : Nat)
    (task₀ : Task)
    (hnorm : ∀ u ∈ S.tasks, ensureTaskDefaults u = u)
    (hfind : findNextActiveIndex S.tasks = some i)
    (ha : S.tasks[i]? = some task₀)
    (hterm₀ : task₀.terminal = false)
    (hstall : task₀.effectiveRemaining ≤ 0) :
    (autoAdvance S ((N : Int) + 1) t).1.map Task.eraseAmounts =
      (autoAdvance (reducer S (AppAction.tick t)) (N : Int) t).1.map Task.eraseAmounts ∧
    (autoAdvance S ((N : Int) + 1) t).2 =
      (autoAdvance (reducer S (AppAction.tick t)) (N : Int) t).2 := by
  have hmapd : S.tasks.map ensureTaskDefaults = S.tasks := map_id_of_fixed hnorm
  have htick : tickTask t task₀ = task₀ := by
    unfold tickTask
    cases hrr : task₀.remainingSeconds with
    | none => rfl
    | some r =>
      have heq : task₀.effectiveRemaining = r := by
        simp [Task.effectiveRemaining, hrr]
      have hre : r ≤ 0 := by omega
      simp [hre]
  have hred : reducer S (AppAction.tick t) =
      { S with tasks := realignTaskStatuses S.tasks } := by
    simp only [reducer, hfind, mapIdx_ite_eq_set _ _ _ _ ha, htick,
      list_set_self ha, ha]
    rw [ensureAligned_of_normalized hnorm]
    simp [hterm₀]
  rw [hred]
  have hLHS : autoAdvance S ((N : Int) + 1) t =
      (realignTaskStatuses S.tasks, S.stats) := by
    simp only [autoAdvance]
    rw [hmapd, autoAdvanceGo_stall t hfind ha hstall]
  have hnorm₁ : ∀ u ∈ realignTaskStatuses S.tasks, ensureTaskDefaults u = u :=
    realignGo_normalized hnorm false
  have hmapd₁ : (realignTaskStatuses S.tasks).map ensureTaskDefaults =
      realignTaskStatuses S.tasks := map_id_of_fixed hnorm₁
  have hsim₁ : ListSim S.tasks (realignTaskStatuses S.tasks) :=
    realignGo_sim_self _ false
  have hfind₁ : findNextActiveIndex (realignTaskStatuses S.tasks) = some i := by
    rw [← hsim₁.find_eq]
    exact hfind
  obtain ⟨b₀, hb₀, hsimb⟩ := hsim₁.getElem ha
  have heffb : b₀.effectiveRemaining ≤ 0 := by
    rw [← hsimb.effRem_eq]
    exact hstall
  have hRHS : autoAdvance { S with tasks := realignTaskStatuses S.tasks } (N : Int) t =
      (realignTaskStatuses (realignTaskStatuses S.tasks), S.stats) := by
    simp only [autoAdvance]
    rw [hmapd₁, autoAdvanceGo_stall t hfind₁ hb₀ heffb]
  rw [hLHS, hRHS]
  rw [show realignTaskStatuses (realignTaskStatuses S.tasks) =
    realignTaskStatuses S.tasks from realignGo_idem _ false]
  exact ⟨rfl, rfl⟩

theorem catchup_step (S : AppState) (N : Nat) (t : Int)
    (hnorm : ∀ u ∈ S.tasks, ensureTaskDefaults u = u)
    (hpause : ∀ u ∈ S.tasks, u.isPaused ≠ some true) :
    (autoAdvance S ((N : Int) + 1) t).1.map Task.eraseAmounts =
      (autoAdvance (reducer S (AppAction.tick t)) (N : Int) t).1.map Task.eraseAmounts ∧
    (autoAdvance S ((N : Int) + 1) t).2 =
      (autoAdvance (reducer S (AppAction.tick t)) (N : Int) t).2 := by
  have hmapd : S.tasks.map ensureTaskDefaults = S.tasks := map_id_of_fixed hnorm
  cases hfind : findNextActiveIndex S.tasks with
  | none =>
    have hred : reducer S (AppAction.tick t) = S := by
      simp only [reducer, hfind]
    rw [hred]
    have hboth : ∀ b : Int, autoAdvance S b t = (realignTaskStatuses S.tasks, S.stats) := by
      intro b
      simp only [autoAdvance]
      rw [hmapd, autoAdvanceGo_noactive t hfind]
    rw [hboth, hboth]
    exact ⟨rfl, rfl⟩
  | some i =>
    obtain ⟨task₀, ha, hterm₀⟩ := findNextActiveIndex_some hfind
    have hpause₀ : ¬ task₀.isPaused = some true := hpause _ (List.getElem?_mem ha)
    have hilen : i < S.tasks.length := by
      obtain ⟨h, -⟩ := List.getElem?_eq_some_iff.mp ha
      exact h
    by_cases hstall : task₀.effectiveRemaining ≤ 0
    · exact catchup_step_stall S N t i task₀ hnorm hfind ha hterm₀ hstall
    · obtain ⟨r, hr⟩ : ∃ r, task₀.remainingSeconds = some r := by
        cases hrr : task₀.remainingSeconds with
        | some r => exact ⟨r, rfl⟩
        | none =>
          by_cases hass : task₀.timeAssignedSeconds.isSome
          · have := ensureTaskDefaults_remaining_of_fixed
              (hnorm _ (List.getElem?_mem ha)) hass
            rw [hrr] at this
            simp at this
          · exfalso
            rw [Option.not_isSome_iff_eq_none] at hass
            have : task₀.effectiveRemaining = 0 := by
              simp [Task.effectiveRemaining, hrr, hass]
            omega
      have hrpos : 0 < r := by
        have heq : task₀.effectiveRemaining = r := by
          simp [Task.effectiveRemaining, hr]
        omega
      by_cases hdec : r - 1 > 0
      · exact catchup_step_dec S N t i task₀ r hnorm hfind ha hpause₀ hilen hr hrpos hdec
      · exact catchup_step_strike S N t i task₀ r hnorm hfind ha hterm₀ hpause₀ hilen hr hrpos hdec

theorem catchup_ind (N : Nat) : ∀ (S : AppState) (t : Int),
    (∀ u ∈ S.tasks, ensureTaskDefaults u = u) →
    realignTaskStatuses S.tasks = S.tasks →
    (∀ u ∈ S.tasks, u.isPaused ≠ some true) →
    (autoAdvance S (N : Int) t).1.map Task.eraseAmounts =
      (tickN t N S).tasks.map Task.eraseAmounts ∧
    (autoAdvance S (N : Int) t).2 = (tickN t N S).stats := by
  induction N with
  | zero =>
    intro S t hnorm halign hpause
    have h0 : ¬ (((0 : Nat) : Int) > 0) := by norm_num
    simp only [autoAdvance, tickN]
    rw [map_id_of_fixed hnorm, autoAdvanceGo_nonpos h0]
    simp [halign]
  | succ n ih =>
    intro S t hnorm halign hpause
    obtain ⟨hn₁, hn₂, hn₃⟩ := reducer_tick_preserves S t hnorm halign hpause
    have hstep := catchup_step S n t hnorm hpause
    have hih := ih (reducer S (AppAction.tick t)) t hn₁ hn₂ hn₃
    have hcast : (((n + 1 : Nat)) : Int) = ((n : Nat) : Int) + 1 := by push_cast; ring
    rw [hcast]
    have htn : tickN t (n + 1) S = tickN t n (reducer S (AppAction.tick t)) := rfl
    rw [htn]
    exact ⟨hstep.1.trans hih.1, hstep.2.trans hih.2⟩

/-- C1 counterexample: the catch-up engine and the tick replay do NOT
produce identical task lists. A single normalized, aligned, unpaused
in-progress task with 10 assigned seconds and 1 remaining second is
struck by both after 1 elapsed second, but the catch-up engine records
`amountSeconds := consumed remaining = 1` in the auto_complete history
entry while the tick reducer records `timeAssignedSeconds ?? 0 = 10`. -/
theorem catchup_not_tick_equivalent_counterexample :
    let T : Task :=
      { id := "x", title := "x", createdAt := 0, updatedAt := 0
        timeAssignedSeconds := some 10, remainingSeconds := some 1
        status := some TaskStatus.in_progress, history := [] }
    let S : AppState :=
      { score := 0
        tasks := [T]
        stats := { totalCompleted := 0, todayCompleted := 0, lastCompletionDate := none }
        meta := { lastSavedAt := 0, appVersion := "1" }
        preferences := { alwaysOnTop := true } }
    (∀ u ∈ S.tasks, ensureTaskDefaults u = u) ∧
    realignTaskStatuses S.tasks = S.tasks ∧
    (∀ u ∈ S.tasks, u.isPaused ≠ some true) ∧
    (autoAdvance S 1 0).2 = (tickN 0 1 S).stats ∧
    (autoAdvance S 1 0).1 ≠ (tickN 0 1 S).tasks := by
  decide

/-- C1, corrected. For every state `S` whose tasks are normalized
(`ensureTaskDefaults` fixes them), realigned, and unpaused, every
`N : Nat` and reference time `t`: the catch-up engine with `N` elapsed
seconds produces the same stats snapshot as dispatching the tick action
`N` times at time `t`, and the same task list — statuses, remaining
times, completedAt stamps, and history entries — up to the recorded
history `amountSeconds`, which the two paths genuinely compute
differently (erased on both sides by `Task.eraseAmounts`). -/
theorem catchup_tick_equivalence (S : AppState) (N : Nat) (t : Int)
    (hnorm : ∀ u ∈ S.tasks, ensureTaskDefaults u = u)
    (halign : realignTaskStatuses S.tasks = S.tasks)
    (hpause : ∀ u ∈ S.tasks, u.isPaused ≠ some true) :
    (autoAdvance S (N : Int) t).1.map Task.eraseAmounts =
      (tickN t N S).tasks.map Task.eraseAmounts ∧
    (autoAdvance S (N : Int) t).2 = (tickN t N S).stats :=
  catchup_ind N S t hnorm halign hpause

theorem catchup_tick_equivalence_witness :
    let T : Task :=
      { id := "w", title := "w", createdAt := 0, updatedAt := 0
        timeAssignedSeconds := some 2, remainingSeconds := some 2
        status := some TaskStatus.in_progress, history := [] }
    let S : AppState :=
      { score := 0
        tasks := [T]
        stats := { totalCompleted := 0, todayCompleted := 0, lastCompletionDate := none }
        meta := { lastSavedAt := 0, appVersion := "1" }
        preferences := { alwaysOnTop := true } }
    (∀ u ∈ S.tasks, ensureTaskDefaults u = u) ∧
    realignTaskStatuses S.tasks = S.tasks ∧
    (∀ u ∈ S.tasks, u.isPaused ≠ some true) ∧
    ((autoAdvance S ((3 : Nat) : Int) 7).1.map Task.eraseAmounts =
        (tickN 7 3 S).tasks.map Task.eraseAmounts ∧
      (autoAdvance S ((3 : Nat) : Int) 7).2 = (tickN 7 3 S).stats) := by
  refine ⟨by decide, by decide, by decide, ?_⟩
  exact catchup_tick_equivalence _ 3 7 (by decide) (by decide) (by decide)

end TaskBound
